import Mathlib

/-!
Calendar plugin: the background scheduler and the legacy recurrence migration.

A shallow embedding of `server/background.go` and `server/migrate.go`.

* Go's `time` package is modelled by instants (nanoseconds since the Unix
  epoch, unbounded integers) paired with a location; a location is a table
  of zone transitions, a fixed zone having none; the civil calendar is the
  proleptic Gregorian calendar.
* The `rrule-go` library, the Mattermost plugin API and the tables declared
  outside the three source files (`EventAlertDurationMap`, `EventAlertTitleMap`,
  `EventAlertNone`, `DefaultColor`) are parameters, collected in `Env`.
* The SQL store is a list of event rows and a list of member rows; the
  candidate query is the `WHERE` clause of `process` evaluated on them.
* Every call that leaves the process (broadcast, channel resolution, post
  creation, marker update) is recorded in a trace, tagged with the id of the
  event it was issued for.  `LogError` calls are not recorded.
-/

namespace Calendar

/-! ## Go `time` -/

/-! A Go `time.Duration` is a count of nanoseconds, an `Int` here. -/

/-- Largest `time.Duration` (`1<<63 - 1`). -/
def maxDuration : Int := 9223372036854775807

/-- Smallest `time.Duration` (`-1 << 63`). -/
def minDuration : Int := -9223372036854775808

/-- One entry of the transition table of a location: from the instant `when`
(Unix seconds) on, the zone `offset` seconds east of UTC is in effect. -/
structure ZoneTrans where
  when : Int
  offset : Int
deriving DecidableEq, Repr

/-- Go `*time.Location`: the offset in effect before the first transition and
the transitions in increasing order of time.  A fixed zone, `time.UTC`
included, has no transition.  (Go continues a table past its last entry by the
rule string of the zone; here the table lists every transition.) -/
structure Location where
  offset : Int
  tx : List ZoneTrans
deriving DecidableEq, Repr

/-- The zone `time.UTC`. -/
def UTC : Location := { offset := 0, tx := [] }

/-- What `Location.lookup` reports for an instant: the offset in effect and the
instants between which it is in effect, `none` standing for no bound. -/
structure ZoneSpan where
  offset : Int
  start : Option Int
  limit : Option Int
deriving DecidableEq, Repr

/-- The search of `Location.lookup` through the transitions, from a zone known
to be in effect since `start`. -/
def lookupFrom (offset : Int) (start : Option Int) : List ZoneTrans → Int → ZoneSpan
  | [], _ => { offset := offset, start := start, limit := none }
  | tr :: rest, sec =>
    if sec < tr.when then { offset := offset, start := start, limit := some tr.when }
    else lookupFrom tr.offset (some tr.when) rest sec

/-- Go `Location.lookup`: the zone in effect at the instant `sec` (Unix
seconds). -/
def Location.lookup (l : Location) (sec : Int) : ZoneSpan :=
  lookupFrom l.offset none l.tx sec

/-- Go `time.Time`: an instant together with the location it is shown in. -/
structure Time where
  unixNano : Int
  loc : Location
deriving DecidableEq, Repr

/-- Nanoseconds in a second. -/
def nsPerSecond : Int := 1000000000

/-- Nanoseconds in a minute. -/
def nsPerMinute : Int := 60000000000

/-- Nanoseconds in an hour. -/
def nsPerHour : Int := 3600000000000

/-- Nanoseconds in a day. -/
def nsPerDay : Int := 86400000000000

/-- Civil date `(year, month, day)` of a day number counted from 1970-01-01,
in the proleptic Gregorian calendar. -/
def civilFromDays (z0 : Int) : Int × Int × Int :=
  let z := z0 + 719468
  let era := z / 146097
  let doe := z - era * 146097
  let yoe := (doe - doe / 1460 + doe / 36524 - doe / 146096) / 365
  let y := yoe + era * 400
  let doy := doe - (365 * yoe + yoe / 4 - yoe / 100)
  let mp := (5 * doy + 2) / 153
  let d := doy - (153 * mp + 2) / 5 + 1
  let m := if mp < 10 then mp + 3 else mp - 9
  (if m ≤ 2 then y + 1 else y, m, d)

/-- Day number counted from 1970-01-01 of the civil date `(y0, m, d)` with
`1 ≤ m ≤ 12`; a day outside the month carries over into the next months. -/
def daysFromCivil (y0 m d : Int) : Int :=
  let y := if m ≤ 2 then y0 - 1 else y0
  let era := y / 400
  let yoe := y - era * 400
  let doy := (153 * (if m > 2 then m - 3 else m + 9) + 2) / 5 + d - 1
  let doe := yoe * 365 + yoe / 4 - yoe / 100 + doy
  era * 146097 + doe - 719468

namespace Time

/-- Go `Time.Unix`: the whole seconds of the instant. -/
def Unix (t : Time) : Int := t.unixNano / nsPerSecond

/-- Wall-clock reading of `t` in its own location, in nanoseconds: the instant
moved by the offset in effect at it. -/
def wall (t : Time) : Int := t.unixNano + (t.loc.lookup t.Unix).offset * nsPerSecond

/-- Day number (from 1970-01-01) of the wall-clock reading. -/
def wallDay (t : Time) : Int := t.wall / nsPerDay

/-- Nanoseconds elapsed since local midnight. -/
def nsOfDay (t : Time) : Int := t.wall % nsPerDay

/-- Go `Time.Year`. -/
def Year (t : Time) : Int := (civilFromDays t.wallDay).1

/-- Go `Time.Month`, as the number 1..12. -/
def Month (t : Time) : Int := (civilFromDays t.wallDay).2.1

/-- Go `Time.Day`. -/
def Day (t : Time) : Int := (civilFromDays t.wallDay).2.2

/-- Go `Time.Hour`. -/
def Hour (t : Time) : Int := t.nsOfDay / nsPerHour

/-- Go `Time.Minute`. -/
def Minute (t : Time) : Int := t.nsOfDay % nsPerHour / nsPerMinute

/-- Go `Time.Second`. -/
def Second (t : Time) : Int := t.nsOfDay % nsPerMinute / nsPerSecond

/-- Go `Time.Nanosecond`. -/
def Nanosecond (t : Time) : Int := t.nsOfDay % nsPerSecond

/-- Go `Time.Location`. -/
def Location (t : Time) : Calendar.Location := t.loc

/-- Go `Time.In`: the same instant shown in another location. -/
def In (t : Time) (loc : Calendar.Location) : Time := { t with loc := loc }

/-- Go `Time.Add`. -/
def Add (t : Time) (d : Int) : Time := { t with unixNano := t.unixNano + d }

/-- Go `Time.Sub`: the difference of the instants, saturating at the largest
and smallest `Duration`. -/
def Sub (t u : Time) : Int :=
  let d := t.unixNano - u.unixNano
  if d > maxDuration then maxDuration else if d < minDuration then minDuration else d

/-- Go `Time.Equal`: the two values denote the same instant. -/
def Equal (t u : Time) : Bool := decide (t.unixNano = u.unixNano)

end Time

/-- The offset `time.Date` subtracts from the wall-clock seconds `unix` to
reach UTC: the offset of the zone in effect at `unix` taken as an instant, if
the instant it leads to lies in that zone, and otherwise the offset in effect
at that instant. -/
def dateOffset (loc : Location) (unix : Int) : Int :=
  let zone := loc.lookup unix
  if zone.offset ≠ 0 then
    let utc := unix - zone.offset
    if zone.start.any (fun start => decide (utc < start))
        || zone.limit.any (fun limit => decide (utc ≥ limit)) then
      (loc.lookup utc).offset
    else zone.offset
  else zone.offset

/-- The wall-clock second `unix` is shown in `loc` by the instant `time.Date`
builds for it: the offset subtracted is the offset in effect at that instant.
A wall-clock time skipped by a transition is not shown. -/
def Location.shows (loc : Location) (unix : Int) : Bool :=
  decide ((loc.lookup (unix - dateOffset loc unix)).offset = dateOffset loc unix)

/-- Go `time.Date`.  A month outside 1..12 carries into the year, and day,
hour, minute, second and nanosecond values outside their range carry over; the
wall-clock seconds are then moved to UTC by `dateOffset`. -/
def Date (year month day hour min sec nsec : Int) (loc : Location) : Time :=
  let y := year + (month - 1) / 12
  let m := (month - 1) % 12 + 1
  let sec := sec + nsec / nsPerSecond
  let nsec := nsec % nsPerSecond
  let unix := daysFromCivil y m day * 86400 + hour * 3600 + min * 60 + sec
  { unixNano := (unix - dateOffset loc unix) * nsPerSecond + nsec, loc := loc }

/-! ## Data model -/

/-- Modelled from the spec: the `Event` record is declared outside the three
source files.  Its fields are those of the data model of the specification,
under the names and with the types `process` uses when it fills the record
(`background.go`, lines 291-307).  `Channel`, `Color` and `AlertTime` are
pointers in the source, `none` being `nil`. -/
structure Event where
  Id : String
  Title : String
  Start : Time
  End : Time
  Attendees : List String
  Created : Time
  Owner : String
  Channel : Option String
  Recurrence : String
  Recurrent : Bool
  Color : Option String
  Description : String
  Team : String
  Alert : String
  AlertTime : Option Time
deriving DecidableEq, Repr

/-- The local type `EventFromDb` of `process`: the event columns of a result
row together with the `member` column of the left join (`nil` when the event
has no member row).  The `Attendees` field is not a column and is ignored. -/
structure EventFromDb extends Event where
  User : Option String
deriving DecidableEq, Repr

/-- A row of `calendar_events`: the event columns and the `processed` marker. -/
structure StoredEvent extends Event where
  processed : Option Time
deriving DecidableEq, Repr

/-- A row of `calendar_members`. -/
structure MemberRow where
  event : String
  member : String
deriving DecidableEq, Repr

/-- The two tables the scheduler reads and writes. -/
structure Store where
  events : List StoredEvent
  members : List MemberRow
deriving DecidableEq, Repr

/-- The part of `model.User` the scheduler reads. -/
structure User where
  Id : String
  Username : String
deriving DecidableEq, Repr

/-- A `model.Post` as built by the scheduler: author, channel, and the single
attachment (text and colour) stored under the `attachments` prop. -/
structure Post where
  UserId : String
  ChannelId : String
  AttachmentText : String
  AttachmentColor : String
deriving DecidableEq, Repr

/-- The payload map of the `event_occur` websocket event. -/
structure WsPayload where
  id : String
  title : String
  channel : Option String
deriving DecidableEq, Repr

/-- Calls that leave the process. -/
inductive Effect where
  | publishWebSocketEvent (event : String) (payload : WsPayload) (userId : String)
  | getDirectChannel (userId1 userId2 : String)
  | getGroupChannel (userIds : List String)
  | createPost (post : Post)
  | updateProcessed (id : String) (tick : Time)
deriving DecidableEq, Repr

/-- A parsed `rrule.RRule`: the instants `Between(after, before, inc)` returns
once `DTStart(dtstart)` has been set. -/
structure RRule where
  between : (dtstart after before : Time) → (inc : Bool) → List Time

/-- Everything `process` obtains from outside the three source files: the
plugin API, the recurrence-rule parser, the database driver's failures and the
alert tables and constants declared elsewhere in the package.  A `none` or
`false` answer of an API function stands for a non-nil error. -/
structure Env where
  BotId : String
  GetUser : String → Option User
  GetDirectChannel : String → String → Option String
  GetGroupChannel : List String → Option String
  CreatePost : Post → Bool
  StrToRRule : String → Option RRule
  EventAlertNone : String
  EventAlertDurationMap : String → Option Int
  EventAlertTitleMap : String → Option String
  DefaultColor : String
  selectFails : Bool
  scanFails : EventFromDb → Bool
  updateFails : String → Time → Bool

/-- The constant `wsEventOccur`. -/
def wsEventOccur : String := "event_occur"

/-- Modelled from the spec: the generic helper `contains` is declared outside
the three source files; the owner is "added if not already present", so it
reports whether the slice holds the value. -/
def contains (xs : List String) (x : String) : Bool :=
  xs.any (fun y => y == x)

/-! ## `background.go` -/

/-- The body of the attendee loop of `getMessageFromEvent` (lines 49-57): a
failed lookup is a `continue`. -/
def addMember (env : Env) (members : String) (member : String) : String :=
  match env.GetUser member with
  | none => members
  | some user => members ++ ("@" ++ user.Username ++ ", ")

/-- `Background.getMessageFromEvent`. -/
def getMessageFromEvent (env : Env) (event : Event) (processTime : Time) : String :=
  let message := ""
  let message :=
    if event.AlertTime.any (fun alertTime => processTime.Equal alertTime) then
      let alertTitle := (env.EventAlertTitleMap event.Alert).getD ""
      message ++ (":alarm_clock: **" ++ alertTitle ++ "** *" ++ event.Title ++ "* :alarm_clock:\n")
    else
      message ++ (":dart: *" ++ event.Title ++ "* :dart:\n")
  let message :=
    if event.Attendees.length > 0 then
      let members := event.Attendees.foldl (addMember env) ""
      message ++ ("**members:** " ++ members ++ "\n")
    else message
  if event.Description ≠ "" then
    message ++ ("**description:**\n" ++ event.Description)
  else message

/-- `Background.getMessageProps`: the text and colour of the attachment.  The
source also stores the default colour into an event without colour; nothing
reads the event's colour afterwards. -/
def getMessageProps (env : Env) (event : Event) (processTime : Time) : String × String :=
  let color := env.DefaultColor
  let eventColor := event.Color.getD color
  (getMessageFromEvent env event processTime, eventColor)

/-- The post `process` and `sendGroupOrPersonalEventNotification` build for a
channel. -/
def postModel (env : Env) (event : Event) (processTime : Time) (channelId : String) : Post :=
  { UserId := env.BotId
    ChannelId := channelId
    AttachmentText := (getMessageProps env event processTime).1
    AttachmentColor := (getMessageProps env event processTime).2 }

/-- The recipient list `sendGroupOrPersonalEventNotification` passes to
`GetGroupChannel`. -/
def groupRecipients (env : Env) (event : Event) : List String :=
  let attendees := ([] : List String) ++ event.Attendees
  let attendees :=
    if !contains attendees event.Owner then attendees ++ [event.Owner] else attendees
  attendees ++ [env.BotId]

/-- `Background.sendGroupOrPersonalEventNotification`: the calls it issues. -/
def sendGroupOrPersonalEventNotification (env : Env) (event : Event) (processTime : Time) :
    List Effect :=
  let attendees := ([] : List String) ++ event.Attendees
  if attendees.length = 0 then
    match env.GetDirectChannel event.Owner env.BotId with
    | none => [Effect.getDirectChannel event.Owner env.BotId]
    | some dChannel =>
      [Effect.getDirectChannel event.Owner env.BotId,
        Effect.createPost (postModel env event processTime dChannel)]
  else
    match env.GetGroupChannel (groupRecipients env event) with
    | none => [Effect.getGroupChannel (groupRecipients env event)]
    | some foundChannel =>
      [Effect.getGroupChannel (groupRecipients env event),
        Effect.createPost (postModel env event processTime foundChannel)]

/-- `Background.sendWsNotification`: one broadcast per entry of the local
recipient list. -/
def sendWsNotification (event : Event) (_processTime : Time) : List Effect :=
  let attendees := ([] : List String) ++ event.Attendees
  let attendees :=
    if !contains attendees event.Owner then attendees ++ [event.Owner] else attendees
  attendees.map (fun user =>
    Effect.publishWebSocketEvent wsEventOccur
      { id := event.Id, title := event.Title, channel := none } user)

/-- The tick `tickWithZone` of `process`: the time in UTC with seconds and
nanoseconds cleared. -/
def tickWithZone (t0 : Time) : Time :=
  let t := t0.In UTC
  Date t.Year t.Month t.Day t.Hour t.Minute 0 0 UTC

/-- Midnight UTC of the civil date `t` shows in its own location
(`time.Date(t.Year(), t.Month(), t.Day(), 0, 0, 0, 0, time.UTC)`). -/
def midnightUTC (t : Time) : Time :=
  Date t.Year t.Month t.Day 0 0 0 0 UTC

/-- SQL `ce.dt_start::time = tick` (`TIME(ce.dt_start) = tick` on MySQL): the
stored timestamp and the tick show the same time of day in UTC. -/
def sameTimeOfDay (stored tick : Time) : Bool :=
  decide ((stored.In UTC).nsOfDay = (tick.In UTC).nsOfDay)

/-- The `WHERE` clause of the candidate query.  A comparison with a `NULL`
column is not true. -/
def isDue (tick : Time) (ce : StoredEvent) : Bool :=
  (ce.Start.Equal tick
    || ce.AlertTime.any (fun a => a.Equal tick)
    || (ce.Recurrent
        && (sameTimeOfDay ce.Start tick
            || ce.AlertTime.any (fun a => sameTimeOfDay a tick))))
  && (ce.processed.isNone || ce.processed.any (fun p => !p.Equal tick))

/-- The rows of `calendar_events ce LEFT JOIN calendar_members cm ON ce.id =
cm.event` for one event row. -/
def joinMembers (members : List MemberRow) (ce : StoredEvent) : List EventFromDb :=
  match members.filter (fun cm => cm.event == ce.Id) with
  | [] => [{ toEvent := ce.toEvent, User := none }]
  | cm :: cms => (cm :: cms).map (fun m => { toEvent := ce.toEvent, User := some m.member })

/-- The result set of the candidate query at `tick`. -/
def selectDue (store : Store) (tick : Time) : List EventFromDb :=
  (store.events.filter (isDue tick)).flatMap (joinMembers store.members)

/-- The recurrent branch of the row loop of `process` (lines 227-285): `none`
is a `continue`, otherwise the row with its start, end and alert time
rewritten.  A non-recurrent row is left as it is. -/
def recompute (env : Env) (tick : Time) (eventDb : EventFromDb) : Option EventFromDb :=
  if eventDb.Recurrent then
    match env.StrToRRule eventDb.Recurrence with
    | none => none
    | some eventRule =>
      let eventTime := eventDb.End.Sub eventDb.Start
      let eventEnd := tick.Add eventTime
      let dtstart := midnightUTC eventDb.Start
      let eventDates := eventRule.between dtstart (midnightUTC tick) eventEnd true
      if eventDates.length < 1 then none
      else
        let recEventTime := eventDb.End.Sub eventDb.Start
        let start := Date tick.Year tick.Month tick.Day
          eventDb.Start.Hour eventDb.Start.Minute eventDb.Start.Second eventDb.Start.Nanosecond
          eventDb.Start.Location
        let eventDb := { eventDb with Start := start }
        let eventDb := { eventDb with End := eventDb.Start.Add recEventTime }
        if eventDb.Alert ≠ env.EventAlertNone then
          let alertDuration := (env.EventAlertDurationMap eventDb.Alert).getD 0
          let alertTime := eventDb.Start.Add (-1 * alertDuration)
          some { eventDb with AlertTime := some alertTime }
        else some eventDb
  else some eventDb

/-- The `Event` stored in the map for a row (lines 287-307). -/
def newEvent (eventDb : EventFromDb) : Event :=
  let att : List String :=
    match eventDb.User with
    | some user => [] ++ [user]
    | none => []
  { Id := eventDb.Id
    Title := eventDb.Title
    Start := eventDb.Start
    End := eventDb.End
    Attendees := att
    Created := eventDb.Created
    Owner := eventDb.Owner
    Channel := eventDb.Channel
    Recurrence := eventDb.Recurrence
    Recurrent := false
    Color := eventDb.Color
    Description := eventDb.Description
    Team := eventDb.Team
    Alert := eventDb.Alert
    AlertTime := eventDb.AlertTime }

/-- The map `events` of `process` is a list of its values, each stored under
its own `Id`; `lookupEvent` is `events[id]`. -/
def lookupEvent (events : List Event) (id : String) : Option Event :=
  events.find? (fun e => e.Id == id)

/-- The append `events[id].Attendees = append(events[id].Attendees, user)`. -/
def appendAttendee (events : List Event) (id : String) (user : String) : List Event :=
  events.map (fun e => if e.Id == id then { e with Attendees := e.Attendees ++ [user] } else e)

/-- The assignment `events[value.Id] = value`: an entry with that id is
replaced, otherwise the entry is added. -/
def putEvent (events : List Event) (value : Event) : List Event :=
  if (lookupEvent events value.Id).isSome then
    events.map (fun e => if e.Id == value.Id then value else e)
  else events ++ [value]

/-- One iteration of the row loop of `process` (lines 215-310). -/
def scanRow (env : Env) (tick : Time) (events : List Event) (row : EventFromDb) : List Event :=
  if env.scanFails row then events
  else
    match lookupEvent events row.Id, row.User with
    | some _, some user => appendAttendee events row.Id user
    | _, _ =>
      match recompute env tick row with
      | none => events
      | some eventDb => putEvent events (newEvent eventDb)

/-- The rows of a result set that `StructScan` decodes; the row loop skips the
others (lines 219-222). -/
def decodedRows (env : Env) (rows : List EventFromDb) : List EventFromDb :=
  rows.filter (fun row => !env.scanFails row)

/-- The row loop of `process`. -/
def mergeRows (env : Env) (tick : Time) (rows : List EventFromDb) : List Event :=
  rows.foldl (scanRow env tick) []

/-- The statement `UPDATE calendar_events SET processed = tick WHERE id = id`. -/
def setProcessed (store : Store) (id : String) (tick : Time) : Store :=
  { store with
    events := store.events.map
      (fun ce => if ce.Id == id then { ce with processed := some tick } else ce) }

/-- The marker update at the end of the dispatch loop body (lines 332-345).
The statement always builds (`ToSql` of an update with a `Set` and a `Where`
clause); running it may fail. -/
def updateProcessed (env : Env) (tick : Time) (store : Store) (id : String) :
    Store × List Effect :=
  if env.updateFails id tick then (store, [Effect.updateProcessed id tick])
  else (setProcessed store id tick, [Effect.updateProcessed id tick])

/-- The body of the dispatch loop of `process` (lines 313-347) for one event:
the store afterwards and the calls issued. -/
def dispatch (env : Env) (tick : Time) (store : Store) (value : Event) : Store × List Effect :=
  let ws := sendWsNotification value tick
  match value.Channel with
  | some channel =>
    let post := postModel env value tick channel
    if env.CreatePost post then
      let upd := updateProcessed env tick store value.Id
      (upd.1, ws ++ [Effect.createPost post] ++ upd.2)
    else (store, ws ++ [Effect.createPost post])
  | none =>
    let chat := sendGroupOrPersonalEventNotification env value tick
    let upd := updateProcessed env tick store value.Id
    (upd.1, ws ++ chat ++ upd.2)

/-- The dispatch loop of `process`; every call is tagged with the id of the
event it was issued for.  The events are visited in list order (the order of
a Go map range is unspecified). -/
def dispatchAll (env : Env) (tick : Time) : List Event → Store → Store × List (String × Effect)
  | [], store => (store, [])
  | value :: rest, store =>
    let r := dispatch env tick store value
    let rs := dispatchAll env tick rest r.1
    (rs.1, r.2.map (fun e => (value.Id, e)) ++ rs.2)

/-- `Background.process`: the store after the cycle and the calls issued.  A
failed candidate query ends the cycle. -/
def process (env : Env) (store : Store) (t : Time) : Store × List (String × Effect) :=
  let tick := tickWithZone t
  if env.selectFails then (store, [])
  else
    let rows := selectDue store tick
    let events := mergeRows env tick rows
    dispatchAll env tick events store

/-! ## `migrate.go` -/

/-- The table `dayOfWeek` of `migrateLegacyRecurrentEvents`; a key outside the
table reads as the empty string. -/
def dayOfWeek (key : Int) : String :=
  if key = 0 then "MO"
  else if key = 1 then "TU"
  else if key = 2 then "WE"
  else if key = 3 then "TH"
  else if key = 4 then "FR"
  else if key = 5 then "SA"
  else if key = 6 then "SU"
  else ""

/-- The loop `for value := range *eventDb.Recurrence` (lines 156-158): a
one-variable `range` over a slice binds the index. -/
def recurrenceDays (recurrence : List Int) : List String :=
  (List.range recurrence.length).foldl
    (fun recurrenceDays value => recurrenceDays ++ [dayOfWeek (Int.ofNat value)]) []

/-- The rule text written for a legacy recurrence value; `none` when the row
is skipped (lines 154-163). -/
def legacyRule (recurrence : List Int) : Option String :=
  if (recurrenceDays recurrence).length < 1 then none
  else some ("RRULE:FREQ=WEEKLY;INTERVAL=1;BYDAY=" ++ ",".intercalate (recurrenceDays recurrence))

/-- The per-row updates `migrateLegacyRecurrentEvents` issues for the decoded
rows `(id, recurrence)` (lines 144-176): pairs of an event id and its new rule
text.  The closing statement of the function, which clears the stored texts
`[]` and `null`, is not among them. -/
def migrateLegacyRecurrentEvents (rows : List (String × List Int)) : List (String × String) :=
  rows.filterMap (fun row => (legacyRule row.2).map (fun rrule => (row.1, rrule)))

/-- The rule text the weekday numbers of a legacy value stand for: the codes
of the listed days, in order, joined by commas. -/
def legacyRuleOfDays (days : List Int) : String :=
  "RRULE:FREQ=WEEKLY;INTERVAL=1;BYDAY=" ++ ",".intercalate (days.map dayOfWeek)

/-- The members text asked of `getMessageFromEvent`: a mention `@name, ` for
each attendee whose lookup succeeds, in attendee order, and nothing for the
others. -/
def mentionsOf (env : Env) (attendees : List String) : String :=
  String.join ((attendees.filterMap env.GetUser).map (fun user => "@" ++ user.Username ++ ", "))

/-! ## Concrete rules, environments and stores used in the examples -/

/-- The instants of a rule `FREQ=WEEKLY` with no other part: `dtstart` and
every seventh day after it, as `Between` reports them. -/
def weeklyRule : RRule where
  between dtstart after before inc :=
    let period := 7 * nsPerDay
    let n : Nat :=
      if before.unixNano < dtstart.unixNano then 0
      else ((before.unixNano - dtstart.unixNano) / period + 1).toNat
    ((List.range n).map (fun k => dtstart.Add (Int.ofNat k * period))).filter
      (fun v =>
        if inc then decide (after.unixNano ≤ v.unixNano ∧ v.unixNano ≤ before.unixNano)
        else decide (after.unixNano < v.unixNano ∧ v.unixNano < before.unixNano))

/-- An environment in which every call succeeds: users are named after their
id, channels after their members, the only rule text that parses is
`FREQ=WEEKLY`, the alert kind "none" is the empty string and the only alert
offset is fifteen minutes. -/
def okEnv : Env where
  BotId := "bot"
  GetUser := fun id => some { Id := id, Username := id }
  GetDirectChannel := fun a b => some ("dm:" ++ a ++ ":" ++ b)
  GetGroupChannel := fun ids => some ("gm:" ++ ",".intercalate ids)
  CreatePost := fun _ => true
  StrToRRule := fun s => if s = "FREQ=WEEKLY" then some weeklyRule else none
  EventAlertNone := ""
  EventAlertDurationMap := fun a => if a = "15_minutes_before" then some (15 * nsPerMinute) else none
  EventAlertTitleMap := fun a => if a = "15_minutes_before" then some "15 minutes before" else none
  DefaultColor := "#D0D0D0"
  selectFails := false
  scanFails := fun _ => false
  updateFails := fun _ _ => false

/-- The environment `okEnv` with every post creation failing. -/
def postFailEnv : Env := { okEnv with CreatePost := fun _ => false }

/-- The instant `secs` seconds after the Unix epoch, shown in UTC. -/
def unixUTC (secs : Int) : Time := { unixNano := secs * nsPerSecond, loc := UTC }

/-- An event row with the given id, owner, channel and start, one hour long,
not recurrent, without alert. -/
def plainEvent (id owner : String) (channel : Option String) (start : Time) : Event where
  Id := id
  Title := "title " ++ id
  Start := start
  End := start.Add nsPerHour
  Attendees := []
  Created := unixUTC 0
  Owner := owner
  Channel := channel
  Recurrence := ""
  Recurrent := false
  Color := none
  Description := ""
  Team := "team"
  Alert := ""
  AlertTime := none

/-- A weekly event on Mondays from 09:00 to 10:00 UTC, first held on
2024-01-01, with a fifteen-minute alert; the row carries no member. -/
def mondayRow : EventFromDb where
  Id := "weekly"
  Title := "stand-up"
  Start := unixUTC 1704099600
  End := unixUTC 1704103200
  Attendees := []
  Created := unixUTC 0
  Owner := "u1"
  Channel := none
  Recurrence := "FREQ=WEEKLY"
  Recurrent := true
  Color := none
  Description := ""
  Team := "team"
  Alert := "15_minutes_before"
  AlertTime := some (unixUTC 1704098700)
  User := none

/-- The row `mondayRow` as rewritten for Monday 2024-01-08: 09:00 to 10:00,
alert at 08:45. -/
def mondayOut : EventFromDb :=
  { mondayRow with
    Start := unixUTC 1704704400
    End := unixUTC 1704708000
    AlertTime := some (unixUTC 1704703500) }

/-- The row `mondayRow` with the alert kind "none" and a stored alert time
left over. -/
def staleAlertRow : EventFromDb := { mondayRow with Alert := "" }

/-- A weekly event on Thursdays from 23:00 to 01:00 UTC, first held on
2024-01-04. -/
def thursdayRow : EventFromDb :=
  { mondayRow with
    Id := "late"
    Start := unixUTC 1704409200
    End := unixUTC 1704416400
    Alert := ""
    AlertTime := none }

/-- The environment `okEnv` in which the lookup of user `x` fails. -/
def lookupFailEnv : Env :=
  { okEnv with GetUser := fun id => if id = "x" then none else some { Id := id, Username := id } }

/-- A tick time: Monday 2024-01-01, 09:00:12 UTC. -/
def newYearTick : Time := unixUTC 1704099612

/-- The next timer signal, fifteen seconds after `newYearTick`. -/
def newYearTickLater : Time := unixUTC 1704099627

/-- Monday 2024-01-08, 09:00:12 UTC. -/
def nextMondayTick : Time := unixUTC 1704704412

/-- Wednesday 2024-01-10, 23:00:00 UTC. -/
def wednesdayLateTick : Time := unixUTC 1704927600

/-- A store holding one event starting on 2024-01-01 at 09:00 UTC, owned by
`u1`, without channel, attendees or alert. -/
def directStore : Store where
  events := [{ toEvent := plainEvent "e1" "u1" none (unixUTC 1704099600), processed := none }]
  members := []

/-- A store holding one event starting on 2024-01-01 at 09:00 UTC, bound to
the channel `town-square`. -/
def channelStore : Store where
  events :=
    [{ toEvent := plainEvent "e2" "u1" (some "town-square") (unixUTC 1704099600),
       processed := none }]
  members := []

/-- An event without channel, with attendees `A` and `B` and owner `O`. -/
def groupEvent : Event :=
  { plainEvent "e3" "O" none (unixUTC 1704099600) with Attendees := ["A", "B"] }

/-- An event without channel, with attendee `a`, owned by the bot of `okEnv`. -/
def botOwnedEvent : Event :=
  { plainEvent "e4" "bot" none (unixUTC 1704099600) with Attendees := ["a"] }

/-- An event with attendees `a`, `x` and `c`. -/
def threeEvent : Event :=
  { plainEvent "e5" "u1" none (unixUTC 1704099600) with Attendees := ["a", "x", "c"] }

/-- A store holding the event `e1` with the members `a`, `x` and `b` and the
event `e2` without members, both starting on 2024-01-01 at 09:00 UTC. -/
def memberStore : Store where
  events :=
    [{ toEvent := plainEvent "e1" "u1" none (unixUTC 1704099600), processed := none },
     { toEvent := plainEvent "e2" "u2" none (unixUTC 1704099600), processed := none }]
  members :=
    [{ event := "e1", member := "a" }, { event := "e1", member := "x" },
     { event := "e1", member := "b" }]

/-- The environment `okEnv` in which the rows of member `x` fail to decode. -/
def scanFailEnv : Env :=
  { okEnv with scanFails := fun row => row.User == some "x" }

/-! ### Calendar lemmas -/

/-- Known dates: the epoch, a leap day, the last day of a century year that is
not a leap year, and a day before the epoch. -/
theorem civilFromDays_known :
    civilFromDays 0 = (1970, 1, 1) ∧ civilFromDays 19723 = (2024, 1, 1) ∧
    civilFromDays 19782 = (2024, 2, 29) ∧ civilFromDays 47540 = (2100, 2, 28) ∧
    civilFromDays 47541 = (2100, 3, 1) ∧ civilFromDays (-1) = (1969, 12, 31) ∧
    civilFromDays 11016 = (2000, 2, 29) := by
  decide

theorem doy_aux (a b c d e f g : Int) (h0 : 0 ≤ a) (h1 : a ≤ 146096)
    (he : e = a / 1460) (hf : f = a / 36524) (hg : g = a / 146096)
    (hb : b = (a - e + f - g) / 365) (hc : c = b / 4) (hd : d = b / 100) :
    0 ≤ a - (365 * b + c - d) ∧ a - (365 * b + c - d) ≤ 365 := by
  have he0 : 0 ≤ e := by omega
  have he1 : e ≤ 100 := by omega
  have hf0 : 0 ≤ f := by omega
  have hf1 : f ≤ 4 := by omega
  interval_cases e <;> first | omega | (interval_cases f <;> omega)

theorem yoe_aux (a : Int) (h0 : 0 ≤ a) (h1 : a ≤ 146096) :
    0 ≤ (a - a / 1460 + a / 36524 - a / 146096) / 365 ∧
      (a - a / 1460 + a / 36524 - a / 146096) / 365 ≤ 399 := by
  omega

theorem inv_aux (era doe yoe doy mp m y : Int) (hy0 : 0 ≤ yoe) (hy1 : yoe ≤ 399)
    (hd0 : 0 ≤ doy) (hd1 : doy ≤ 365)
    (hdoy : doy = doe - (365 * yoe + yoe / 4 - yoe / 100))
    (hmp : mp = (5 * doy + 2) / 153)
    (hm : m = if mp < 10 then mp + 3 else mp - 9)
    (hy : y = yoe + era * 400) :
    daysFromCivil (if m ≤ 2 then y + 1 else y) m (doy - (153 * mp + 2) / 5 + 1)
      = era * 146097 + doe - 719468 := by
  subst hm hy
  unfold daysFromCivil
  by_cases h10 : mp < 10
  · have hm2 : ¬ (mp + 3 ≤ 2) := by omega
    have hm3 : mp + 3 > 2 := by omega
    simp only [h10, if_true, hm2, if_false, hm3]
    have e1 : (yoe + era * 400) / 400 = era := by omega
    have e2 : mp + 3 - 3 = mp := by omega
    rw [e1, e2]
    have e3 : yoe + era * 400 - era * 400 = yoe := by omega
    rw [e3]
    omega
  · have hm2 : mp - 9 ≤ 2 := by omega
    have hm3 : ¬ (mp - 9 > 2) := by omega
    simp only [h10, if_false, hm2, if_true, hm3]
    have e0 : yoe + era * 400 + 1 - 1 = yoe + era * 400 := by omega
    have e1 : (yoe + era * 400) / 400 = era := by omega
    have e2 : mp - 9 + 9 = mp := by omega
    rw [e0, e1, e2]
    have e3 : yoe + era * 400 - era * 400 = yoe := by omega
    rw [e3]
    omega

/-- The day number of the civil date of a day number is that day number. -/
theorem daysFromCivil_civilFromDays (z : Int) :
    daysFromCivil (civilFromDays z).1 (civilFromDays z).2.1 (civilFromDays z).2.2 = z := by
  have hdoe0 : 0 ≤ (z + 719468) - (z + 719468) / 146097 * 146097 := by omega
  have hdoe1 : (z + 719468) - (z + 719468) / 146097 * 146097 ≤ 146096 := by omega
  have h := doy_aux _ _ _ _ _ _ _ hdoe0 hdoe1 rfl rfl rfl rfl rfl rfl
  have hy := yoe_aux _ hdoe0 hdoe1
  have := inv_aux ((z + 719468) / 146097) _ _ _ _ _ _ hy.1 hy.2 h.1 h.2 rfl rfl rfl rfl
  simp only [civilFromDays]
  rw [this]
  omega

/-- The month of a civil date lies in 1..12. -/
theorem civilFromDays_month (z : Int) :
    1 ≤ (civilFromDays z).2.1 ∧ (civilFromDays z).2.1 ≤ 12 := by
  have hdoe0 : 0 ≤ (z + 719468) - (z + 719468) / 146097 * 146097 := by omega
  have hdoe1 : (z + 719468) - (z + 719468) / 146097 * 146097 ≤ 146096 := by omega
  have h := doy_aux _ _ _ _ _ _ _ hdoe0 hdoe1 rfl rfl rfl rfl rfl rfl
  simp only [civilFromDays]
  generalize (z + 719468 - (z + 719468) / 146097 * 146097) -
    (365 * ((z + 719468 - (z + 719468) / 146097 * 146097 -
      (z + 719468 - (z + 719468) / 146097 * 146097) / 1460 +
      (z + 719468 - (z + 719468) / 146097 * 146097) / 36524 -
      (z + 719468 - (z + 719468) / 146097 * 146097) / 146096) / 365) +
      ((z + 719468 - (z + 719468) / 146097 * 146097 -
      (z + 719468 - (z + 719468) / 146097 * 146097) / 1460 +
      (z + 719468 - (z + 719468) / 146097 * 146097) / 36524 -
      (z + 719468 - (z + 719468) / 146097 * 146097) / 146096) / 365) / 4 -
      ((z + 719468 - (z + 719468) / 146097 * 146097 -
      (z + 719468 - (z + 719468) / 146097 * 146097) / 1460 +
      (z + 719468 - (z + 719468) / 146097 * 146097) / 36524 -
      (z + 719468 - (z + 719468) / 146097 * 146097) / 146096) / 365) / 100) = doy at h ⊢
  split <;> omega

theorem lookup_fixed (loc : Location) (h : loc.tx = []) (sec : Int) :
    loc.lookup sec = { offset := loc.offset, start := none, limit := none } := by
  unfold Location.lookup
  rw [h]
  rfl

theorem dateOffset_fixed (loc : Location) (h : loc.tx = []) (unix : Int) :
    dateOffset loc unix = loc.offset := by
  unfold dateOffset
  simp only [lookup_fixed loc h]
  by_cases h0 : loc.offset = 0
  · simp [h0]
  · simp [h0]

/-- In a zone without transitions every wall-clock second is shown. -/
theorem shows_fixed (loc : Location) (h : loc.tx = []) (unix : Int) :
    loc.shows unix = true := by
  unfold Location.shows
  rw [dateOffset_fixed loc h, lookup_fixed loc h]
  simp

/-- The wall-clock seconds `time.Date` computes for the civil date of day `z`
and a clock time. -/
theorem Date_unixNano (z hour min sec nsec : Int) (loc : Location) :
    (Date (civilFromDays z).1 (civilFromDays z).2.1 (civilFromDays z).2.2
        hour min sec nsec loc).unixNano
      = (z * 86400 + hour * 3600 + min * 60 + (sec + nsec / nsPerSecond)
          - dateOffset loc (z * 86400 + hour * 3600 + min * 60 + (sec + nsec / nsPerSecond)))
          * nsPerSecond + nsec % nsPerSecond := by
  have hm := civilFromDays_month z
  have h1 : ((civilFromDays z).2.1 - 1) / 12 = 0 := by omega
  have h2 : ((civilFromDays z).2.1 - 1) % 12 + 1 = (civilFromDays z).2.1 := by omega
  simp only [Date, h1, h2, add_zero, daysFromCivil_civilFromDays]

/-- Reading of `Date` at the civil date of a day number `z` and a clock time,
when the wall-clock second is shown in the location: the wall-clock value is
`z` days and the clock time. -/
theorem Date_wall (z hour min sec nsec : Int) (loc : Location)
    (hshow : loc.shows (z * 86400 + hour * 3600 + min * 60 + (sec + nsec / nsPerSecond))
      = true) :
    (Date (civilFromDays z).1 (civilFromDays z).2.1 (civilFromDays z).2.2
        hour min sec nsec loc).wall
      = z * nsPerDay + ((hour * 3600 + min * 60 + sec) * nsPerSecond + nsec) := by
  have hu := Date_unixNano z hour min sec nsec loc
  have hloc : (Date (civilFromDays z).1 (civilFromDays z).2.1 (civilFromDays z).2.2
      hour min sec nsec loc).loc = loc := rfl
  unfold Location.shows at hshow
  simp only [decide_eq_true_eq] at hshow
  generalize hU : z * 86400 + hour * 3600 + min * 60 + (sec + nsec / nsPerSecond) = unix
    at hu hshow
  generalize dateOffset loc unix = off at hu hshow
  have hsec : (Date (civilFromDays z).1 (civilFromDays z).2.1 (civilFromDays z).2.2
      hour min sec nsec loc).Unix = unix - off := by
    unfold Time.Unix
    rw [hu]
    unfold nsPerSecond
    omega
  unfold Time.wall
  rw [hloc, hsec, hshow, hu]
  unfold nsPerSecond at hU ⊢
  unfold nsPerDay
  omega

/-! ### Readings of dates and durations -/

theorem nsOfDay_range (t : Time) : 0 ≤ t.nsOfDay ∧ t.nsOfDay < nsPerDay := by
  unfold Time.nsOfDay nsPerDay
  omega

/-- A `Date` built from the civil date of day `z` and a clock time inside the
day, at a wall-clock second the location shows, reads day `z` and that clock
time. -/
theorem Date_reading (z hour min sec nsec : Int) (loc : Location)
    (h0 : 0 ≤ (hour * 3600 + min * 60 + sec) * nsPerSecond + nsec)
    (h1 : (hour * 3600 + min * 60 + sec) * nsPerSecond + nsec < nsPerDay)
    (hshow : loc.shows (z * 86400 + hour * 3600 + min * 60 + (sec + nsec / nsPerSecond))
      = true) :
    (Date (civilFromDays z).1 (civilFromDays z).2.1 (civilFromDays z).2.2
        hour min sec nsec loc).wallDay = z ∧
    (Date (civilFromDays z).1 (civilFromDays z).2.1 (civilFromDays z).2.2
        hour min sec nsec loc).nsOfDay = (hour * 3600 + min * 60 + sec) * nsPerSecond + nsec := by
  have hw := Date_wall z hour min sec nsec loc hshow
  unfold Time.wallDay Time.nsOfDay
  rw [hw]
  generalize (hour * 3600 + min * 60 + sec) * nsPerSecond + nsec = n at h0 h1 ⊢
  unfold nsPerDay at h1 ⊢
  constructor
  · omega
  · omega

theorem tickWithZone_wallDay (t : Time) : (tickWithZone t).wallDay = (t.In UTC).wallDay := by
  have hr := nsOfDay_range (t.In UTC)
  have h := Date_reading (t.In UTC).wallDay (t.In UTC).Hour (t.In UTC).Minute 0 0 UTC
    (by
      unfold Time.Hour Time.Minute
      generalize (t.In UTC).nsOfDay = w at hr ⊢
      unfold nsPerDay at hr
      unfold nsPerHour nsPerMinute nsPerSecond
      omega)
    (by
      unfold Time.Hour Time.Minute
      generalize (t.In UTC).nsOfDay = w at hr ⊢
      unfold nsPerDay at hr ⊢
      unfold nsPerHour nsPerMinute nsPerSecond
      omega)
    (shows_fixed UTC rfl _)
  exact h.1

theorem wall_UTC (t : Time) (h : t.loc = UTC) : t.wall = t.unixNano := by
  unfold Time.wall
  rw [h, lookup_fixed UTC rfl]
  simp [UTC]

/-- The tick is the instant of `t` with the seconds and nanoseconds of its
minute removed, shown in UTC. -/
theorem tickWithZone_eq (t : Time) :
    tickWithZone t = { unixNano := t.unixNano - t.unixNano % nsPerMinute, loc := UTC } := by
  have hw := Date_wall (t.In UTC).wallDay (t.In UTC).Hour (t.In UTC).Minute 0 0 UTC
    (shows_fixed UTC rfl _)
  have hloc : (tickWithZone t).loc = UTC := rfl
  have hwall : (tickWithZone t).wall = (tickWithZone t).unixNano := wall_UTC _ hloc
  have hin : (t.In UTC).wall = t.unixNano := wall_UTC _ rfl
  have hu : (tickWithZone t).unixNano = t.unixNano - t.unixNano % nsPerMinute := by
    rw [← hwall]
    show (Date _ _ _ _ _ 0 0 UTC).wall = _
    unfold Time.Year Time.Month Time.Day
    rw [hw]
    unfold Time.Hour Time.Minute Time.nsOfDay Time.wallDay
    rw [hin]
    unfold nsPerDay nsPerHour nsPerMinute nsPerSecond
    omega
  cases h : tickWithZone t with
  | mk u l =>
    rw [h] at hu hloc
    simp only at hu hloc
    rw [hu, hloc]

theorem contains_iff (xs : List String) (x : String) : contains xs x = true ↔ x ∈ xs := by
  simp [contains, List.any_eq_true]

/-- The recipient list of the broadcast loop: the attendees, then the owner
unless already listed. -/
theorem sendWsNotification_eq (event : Event) (processTime : Time) :
    sendWsNotification event processTime =
      (event.Attendees ++ (if event.Owner ∈ event.Attendees then [] else [event.Owner])).map
        (fun user => Effect.publishWebSocketEvent wsEventOccur
          { id := event.Id, title := event.Title, channel := none } user) := by
  unfold sendWsNotification
  by_cases h : event.Owner ∈ event.Attendees
  · have hc : contains event.Attendees event.Owner = true := (contains_iff _ _).2 h
    simp [h, hc]
  · have hc : contains event.Attendees event.Owner = false := by
      rw [Bool.eq_false_iff]; intro hc; exact h ((contains_iff _ _).1 hc)
    simp [h, hc]

theorem nodup_with_owner (attendees : List String) (owner : String) (hnd : attendees.Nodup) :
    (attendees ++ (if owner ∈ attendees then [] else [owner])).Nodup := by
  by_cases h : owner ∈ attendees
  · simpa [h] using hnd
  · simp only [h, if_false]
    rw [List.nodup_append]
    refine ⟨hnd, List.nodup_singleton _, ?_⟩
    intro a ha hb
    simp at hb
    subst hb
    exact h ha

theorem mem_with_owner (attendees : List String) (owner user : String) :
    user ∈ attendees ++ (if owner ∈ attendees then [] else [owner]) ↔
      user ∈ attendees ∨ user = owner := by
  by_cases h : owner ∈ attendees
  · simp only [h, if_true, List.append_nil]
    constructor
    · exact Or.inl
    · rintro (h1 | h1)
      · exact h1
      · subst h1; exact h
  · simp [h]

theorem String_join_cons (a : String) (l : List String) :
    String.join (a :: l) = a ++ String.join l := by
  have key : ∀ (l : List String) (acc : String),
      List.foldl (fun r s => r ++ s) acc l = acc ++ List.foldl (fun r s => r ++ s) "" l := by
    intro l
    induction l with
    | nil => intro acc; simp
    | cons b l ih =>
      intro acc
      simp only [List.foldl_cons]
      rw [ih (acc ++ b), ih ("" ++ b)]
      simp [String.append_assoc]
  unfold String.join
  simp only [List.foldl_cons]
  rw [key l ("" ++ a)]
  simp

theorem members_loop (env : Env) (attendees : List String) (acc : String) :
    attendees.foldl (addMember env) acc = acc ++ mentionsOf env attendees := by
  induction attendees generalizing acc with
  | nil => simp [mentionsOf, String.join]
  | cons a l ih =>
    simp only [List.foldl_cons]
    rw [ih]
    cases hu : env.GetUser a with
    | none => simp [mentionsOf, addMember, hu]
    | some user =>
      simp only [mentionsOf, addMember, List.filterMap_cons, hu, List.map_cons, String_join_cons,
        String.append_assoc]

/-! ### The recurrence step -/

/-- The start `process` gives a recurrent row at `tick`. -/
theorem recompute_some (env : Env) (tick : Time) (row out : EventFromDb)
    (hrec : row.Recurrent = true) (h : recompute env tick row = some out) :
    ∃ rule, env.StrToRRule row.Recurrence = some rule ∧
      1 ≤ (rule.between (midnightUTC row.Start) (midnightUTC tick)
            (tick.Add (row.End.Sub row.Start)) true).length ∧
      out.Start = Date tick.Year tick.Month tick.Day row.Start.Hour row.Start.Minute
        row.Start.Second row.Start.Nanosecond row.Start.Location ∧
      out.End = out.Start.Add (row.End.Sub row.Start) ∧
      out.Alert = row.Alert ∧
      out.AlertTime =
        (if row.Alert ≠ env.EventAlertNone then
          some (out.Start.Add (-1 * (env.EventAlertDurationMap row.Alert).getD 0))
        else row.AlertTime) := by
  unfold recompute at h
  rw [if_pos hrec] at h
  cases hp : env.StrToRRule row.Recurrence with
  | none => rw [hp] at h; simp at h
  | some rule =>
    rw [hp] at h
    simp only at h
    by_cases hlen : (rule.between (midnightUTC row.Start) (midnightUTC tick)
        (tick.Add (row.End.Sub row.Start)) true).length < 1
    · rw [if_pos hlen] at h; simp at h
    · rw [if_neg hlen] at h
      refine ⟨rule, rfl, by omega, ?_⟩
      by_cases ha : row.Alert ≠ env.EventAlertNone
      · rw [if_pos ha] at h
        simp only [Option.some.injEq] at h
        subst h
        simp [ha]
      · rw [if_neg ha] at h
        simp only [Option.some.injEq] at h
        subst h
        simp [ha]

theorem recompute_none_iff (env : Env) (tick : Time) (row : EventFromDb) (rule : RRule)
    (hrec : row.Recurrent = true) (hp : env.StrToRRule row.Recurrence = some rule) :
    recompute env tick row = none ↔
      (rule.between (midnightUTC row.Start) (midnightUTC tick)
        (tick.Add (row.End.Sub row.Start)) true).length < 1 := by
  unfold recompute
  rw [if_pos hrec, hp]
  simp only
  by_cases hlen : (rule.between (midnightUTC row.Start) (midnightUTC tick)
      (tick.Add (row.End.Sub row.Start)) true).length < 1
  · simp [hlen]
  · rw [if_neg hlen]
    constructor
    · intro h
      split at h <;> simp at h
    · intro h
      exact absurd h hlen

/-! ### The dispatch loop -/

/-- The calls `dispatch` issues do not depend on the store. -/
theorem dispatch_calls (env : Env) (tick : Time) (s s2 : Store) (value : Event) :
    (dispatch env tick s value).2 = (dispatch env tick s2 value).2 := by
  unfold dispatch updateProcessed
  cases value.Channel with
  | none =>
    simp only
    by_cases hf : env.updateFails value.Id tick = true
    · simp [hf]
    · simp [hf]
  | some channel =>
    simp only
    by_cases hp : env.CreatePost (postModel env value tick channel) = true
    · by_cases hf : env.updateFails value.Id tick = true
      · simp [hp, hf]
      · simp [hp, hf]
    · simp [hp]

/-- Every call in the trace of the loop carries the id of a dispatched event
and is one of the calls `dispatch` issues for it. -/
theorem dispatchAll_mem (env : Env) (tick : Time) (events : List Event) (s s0 : Store)
    (id : String) (fx : Effect) :
    (id, fx) ∈ (dispatchAll env tick events s).2 ↔
      ∃ value ∈ events, value.Id = id ∧ fx ∈ (dispatch env tick s0 value).2 := by
  induction events generalizing s with
  | nil => simp [dispatchAll]
  | cons v rest ih =>
    simp only [dispatchAll, List.mem_append, List.mem_map, Prod.mk.injEq, List.mem_cons,
      exists_eq_or_imp]
    rw [ih, dispatch_calls env tick s s0 v]
    constructor
    · rintro (⟨e, he, hid, rfl⟩ | h)
      · exact Or.inl ⟨hid, he⟩
      · exact Or.inr h
    · rintro (⟨hid, he⟩ | h)
      · exact Or.inl ⟨fx, he, hid, rfl⟩
      · exact Or.inr h

theorem not_update_mem_ws (event : Event) (processTime : Time) (id : String) (tick : Time) :
    Effect.updateProcessed id tick ∉ sendWsNotification event processTime := by
  rw [sendWsNotification_eq]
  intro h
  rw [List.mem_map] at h
  obtain ⟨_, _, h⟩ := h
  cases h

theorem not_update_mem_chat (env : Env) (event : Event) (processTime : Time) (id : String)
    (tick : Time) :
    Effect.updateProcessed id tick ∉ sendGroupOrPersonalEventNotification env event processTime := by
  unfold sendGroupOrPersonalEventNotification
  intro h
  simp only at h
  split at h
  · split at h <;> simp at h
  · split at h <;> simp at h

/-- The marker update of an event is issued exactly when the event has no
bound channel or the post to its bound channel was created; it is then the
update of that event at the tick. -/
theorem update_mem_dispatch (env : Env) (tick : Time) (s : Store) (value : Event)
    (id : String) (t2 : Time) :
    Effect.updateProcessed id t2 ∈ (dispatch env tick s value).2 ↔
      (id = value.Id ∧ t2 = tick ∧
        (value.Channel = none ∨
          ∃ channel, value.Channel = some channel ∧
            env.CreatePost (postModel env value tick channel) = true)) := by
  have hws := not_update_mem_ws value tick id t2
  have hchat := not_update_mem_chat env value tick id t2
  unfold dispatch updateProcessed
  cases hc : value.Channel with
  | none =>
    simp only
    by_cases hf : env.updateFails value.Id tick = true
    · simp [hf, hws, hchat]
    · simp [hf, hws, hchat]
  | some channel =>
    simp only
    by_cases hp : env.CreatePost (postModel env value tick channel) = true
    · by_cases hf : env.updateFails value.Id tick = true
      · simp [hp, hf, hws]
      · simp [hp, hf, hws]
    · simp [hp, hws]

/-! ### The row loop -/

theorem recompute_Id (env : Env) (tick : Time) (row out : EventFromDb)
    (h : recompute env tick row = some out) : out.Id = row.Id ∧ out.User = row.User := by
  unfold recompute at h
  by_cases hrec : row.Recurrent = true
  · rw [if_pos hrec] at h
    cases hp : env.StrToRRule row.Recurrence with
    | none => rw [hp] at h; simp at h
    | some rule =>
      rw [hp] at h
      simp only at h
      split at h
      · simp at h
      · split at h
        · simp only [Option.some.injEq] at h
          subst h
          exact ⟨rfl, rfl⟩
        · simp only [Option.some.injEq] at h
          subst h
          exact ⟨rfl, rfl⟩
  · rw [if_neg hrec] at h
    simp only [Option.some.injEq] at h
    subst h
    exact ⟨rfl, rfl⟩

theorem recompute_plain (env : Env) (tick : Time) (row : EventFromDb)
    (hrec : row.Recurrent = false) : recompute env tick row = some row := by
  unfold recompute
  simp [hrec]

theorem lookupEvent_isSome (events : List Event) (id : String) :
    (lookupEvent events id).isSome = true ↔ id ∈ events.map (fun e => e.Id) := by
  unfold lookupEvent
  rw [List.find?_isSome]
  simp only [beq_iff_eq, List.mem_map]

theorem appendAttendee_ids (events : List Event) (id user : String) :
    (appendAttendee events id user).map (fun e => e.Id) = events.map (fun e => e.Id) := by
  unfold appendAttendee
  rw [List.map_map]
  apply List.map_congr_left
  intro e _
  simp only [Function.comp]
  split <;> rfl

theorem putEvent_ids (events : List Event) (value : Event) :
    (putEvent events value).map (fun e => e.Id) =
      if value.Id ∈ events.map (fun e => e.Id) then events.map (fun e => e.Id)
      else events.map (fun e => e.Id) ++ [value.Id] := by
  unfold putEvent
  by_cases h : (lookupEvent events value.Id).isSome = true
  · rw [if_pos h, if_pos ((lookupEvent_isSome _ _).1 h), List.map_map]
    apply List.map_congr_left
    intro e _
    simp only [Function.comp]
    by_cases he : e.Id = value.Id
    · simp [he]
    · simp [he]
  · rw [if_neg h, if_neg (fun hm => h ((lookupEvent_isSome _ _).2 hm))]
    simp

/-- The ids in the map after one row: the ids before, and the id of the row
when it is new and the row is kept. -/
theorem scanRow_ids (env : Env) (tick : Time) (events : List Event) (row : EventFromDb) :
    (scanRow env tick events row).map (fun e => e.Id) = events.map (fun e => e.Id) ∨
    (env.scanFails row = false ∧ (recompute env tick row).isSome = true ∧
      row.Id ∉ events.map (fun e => e.Id) ∧
      (scanRow env tick events row).map (fun e => e.Id) =
        events.map (fun e => e.Id) ++ [row.Id]) := by
  unfold scanRow
  by_cases hs : env.scanFails row = true
  · left; simp [hs]
  · rw [if_neg hs]
    have hs2 : env.scanFails row = false := by simpa using hs
    have key : (match recompute env tick row with
        | none => events
        | some eventDb => putEvent events (newEvent eventDb)).map (fun e : Event => e.Id)
          = events.map (fun e => e.Id) ∨
        (env.scanFails row = false ∧ (recompute env tick row).isSome = true ∧
          row.Id ∉ events.map (fun e => e.Id) ∧
          (match recompute env tick row with
            | none => events
            | some eventDb => putEvent events (newEvent eventDb)).map (fun e : Event => e.Id)
            = events.map (fun e => e.Id) ++ [row.Id]) := by
      cases hr : recompute env tick row with
      | none => left; rfl
      | some out =>
        simp only
        have hid : (newEvent out).Id = row.Id := (recompute_Id env tick row out hr).1
        rw [putEvent_ids, hid]
        by_cases hm : row.Id ∈ events.map (fun e => e.Id)
        · left; rw [if_pos hm]
        · right; rw [if_neg hm]; exact ⟨hs2, rfl, hm, rfl⟩
    cases hl : lookupEvent events row.Id with
    | none => simpa using key
    | some e =>
      cases hu : row.User with
      | none => simpa using key
      | some user => left; simp only; exact appendAttendee_ids _ _ _

theorem scanRow_nodup (env : Env) (tick : Time) (events : List Event) (row : EventFromDb)
    (h : (events.map (fun e => e.Id)).Nodup) :
    ((scanRow env tick events row).map (fun e => e.Id)).Nodup := by
  rcases scanRow_ids env tick events row with h1 | ⟨_, _, hn, h1⟩
  · rw [h1]; exact h
  · rw [h1, List.nodup_append]
    refine ⟨h, List.nodup_singleton _, ?_⟩
    intro a ha hb
    simp at hb
    subst hb
    exact hn ha

theorem foldl_scanRow_nodup (env : Env) (tick : Time) (rows : List EventFromDb)
    (acc : List Event) (h : (acc.map (fun e => e.Id)).Nodup) :
    ((rows.foldl (scanRow env tick) acc).map (fun e => e.Id)).Nodup := by
  induction rows generalizing acc with
  | nil => exact h
  | cons r rest ih => exact ih _ (scanRow_nodup env tick acc r h)

/-- No two events in the map share an id. -/
theorem mergeRows_nodup (env : Env) (tick : Time) (rows : List EventFromDb) :
    ((mergeRows env tick rows).map (fun e => e.Id)).Nodup :=
  foldl_scanRow_nodup env tick rows [] (by simp)

theorem foldl_scanRow_origin (env : Env) (tick : Time) (rows : List EventFromDb)
    (acc : List Event) (id : String)
    (h : id ∈ (rows.foldl (scanRow env tick) acc).map (fun e => e.Id)) :
    id ∈ acc.map (fun e => e.Id) ∨
      ∃ row ∈ rows, row.Id = id ∧ env.scanFails row = false ∧
        (recompute env tick row).isSome = true := by
  induction rows generalizing acc with
  | nil => exact Or.inl h
  | cons r rest ih =>
    rw [List.foldl_cons] at h
    rcases ih _ h with h1 | ⟨row, hrow, hid, hok⟩
    · rcases scanRow_ids env tick acc r with h2 | ⟨hs, hr, _, h2⟩
      · rw [h2] at h1; exact Or.inl h1
      · rw [h2, List.mem_append] at h1
        rcases h1 with h1 | h1
        · exact Or.inl h1
        · simp at h1
          exact Or.inr ⟨r, List.mem_cons_self _ _, h1.symm, hs, hr⟩
    · exact Or.inr ⟨row, List.mem_cons_of_mem _ hrow, hid, hok⟩

/-- Every event in the map stems from a decoded row of its id that the
recurrence step kept. -/
theorem mergeRows_origin (env : Env) (tick : Time) (rows : List EventFromDb) (e : Event)
    (h : e ∈ mergeRows env tick rows) :
    ∃ row ∈ rows, row.Id = e.Id ∧ env.scanFails row = false ∧
      (recompute env tick row).isSome = true := by
  have hm : e.Id ∈ (mergeRows env tick rows).map (fun e => e.Id) :=
    List.mem_map.2 ⟨e, h, rfl⟩
  rcases foldl_scanRow_origin env tick rows [] e.Id hm with h1 | h1
  · simp at h1
  · exact h1

/-! ### The candidate query -/

theorem mem_joinMembers (members : List MemberRow) (ce : StoredEvent) (row : EventFromDb)
    (h : row ∈ joinMembers members ce) : row.toEvent = ce.toEvent := by
  unfold joinMembers at h
  split at h
  · simp at h; subst h; rfl
  · rw [List.mem_map] at h
    obtain ⟨m, _, rfl⟩ := h
    rfl

/-- Every row of the result set comes from a stored event that satisfies the
`WHERE` clause. -/
theorem mem_selectDue (store : Store) (tick : Time) (row : EventFromDb)
    (h : row ∈ selectDue store tick) :
    ∃ ce ∈ store.events, isDue tick ce = true ∧ row.toEvent = ce.toEvent := by
  unfold selectDue at h
  rw [List.mem_flatMap] at h
  obtain ⟨ce, hce, hrow⟩ := h
  rw [List.mem_filter] at hce
  exact ⟨ce, hce.1, hce.2, mem_joinMembers _ _ _ hrow⟩

/-- A stored event whose marker is the tick is not selected. -/
theorem isDue_processed (tick : Time) (ce : StoredEvent) (h : ce.processed = some tick) :
    isDue tick ce = false := by
  unfold isDue
  rw [h]
  simp [Time.Equal]

/-! ### The processed marker -/

theorem setProcessed_marks (s : Store) (id : String) (tick : Time) :
    ∀ ce ∈ (setProcessed s id tick).events, ce.Id = id → ce.processed = some tick := by
  intro ce hce hid
  unfold setProcessed at hce
  simp only [List.mem_map] at hce
  obtain ⟨c0, _, rfl⟩ := hce
  by_cases h : c0.Id = id
  · simp [h]
  · simp only [beq_iff_eq, h, if_false] at hid

theorem setProcessed_keeps (s : Store) (id id2 : String) (tick : Time)
    (h : ∀ ce ∈ s.events, ce.Id = id → ce.processed = some tick) :
    ∀ ce ∈ (setProcessed s id2 tick).events, ce.Id = id → ce.processed = some tick := by
  intro ce hce hid
  unfold setProcessed at hce
  simp only [List.mem_map] at hce
  obtain ⟨c0, hc0, rfl⟩ := hce
  by_cases h2 : c0.Id = id2
  · simp [h2]
  · simp only [beq_iff_eq, h2, if_false] at hid ⊢
    exact h c0 hc0 hid

/-- The store after `dispatch` is the store before, or the store with the
marker of the event set. -/
theorem dispatch_store (env : Env) (tick : Time) (s : Store) (value : Event) :
    (dispatch env tick s value).1 = s ∨
      (dispatch env tick s value).1 = setProcessed s value.Id tick := by
  unfold dispatch updateProcessed
  cases value.Channel with
  | none =>
    simp only
    by_cases hf : env.updateFails value.Id tick = true
    · left; simp [hf]
    · right; simp [hf]
  | some channel =>
    simp only
    by_cases hp : env.CreatePost (postModel env value tick channel) = true
    · by_cases hf : env.updateFails value.Id tick = true
      · left; simp [hp, hf]
      · right; simp [hp, hf]
    · left; simp [hp]

theorem dispatch_keeps (env : Env) (tick : Time) (s : Store) (value : Event) (id : String)
    (h : ∀ ce ∈ s.events, ce.Id = id → ce.processed = some tick) :
    ∀ ce ∈ (dispatch env tick s value).1.events, ce.Id = id → ce.processed = some tick := by
  rcases dispatch_store env tick s value with h1 | h1
  · rw [h1]; exact h
  · rw [h1]; exact setProcessed_keeps s id value.Id tick h

theorem dispatchAll_keeps (env : Env) (tick : Time) (events : List Event) (s : Store)
    (id : String) (h : ∀ ce ∈ s.events, ce.Id = id → ce.processed = some tick) :
    ∀ ce ∈ (dispatchAll env tick events s).1.events, ce.Id = id → ce.processed = some tick := by
  induction events generalizing s with
  | nil => exact h
  | cons v rest ih =>
    simp only [dispatchAll]
    exact ih _ (dispatch_keeps env tick s v id h)

/-- An issued marker update that does not fail sets the marker of every
stored event of that id. -/
theorem dispatch_marks (env : Env) (tick : Time) (s : Store) (value : Event) (id : String)
    (hupd : Effect.updateProcessed id tick ∈ (dispatch env tick s value).2)
    (hok : env.updateFails id tick = false) :
    ∀ ce ∈ (dispatch env tick s value).1.events, ce.Id = id → ce.processed = some tick := by
  have hiff := (update_mem_dispatch env tick s value id tick).1 hupd
  obtain ⟨hid, _, hch⟩ := hiff
  subst hid
  have hst : (dispatch env tick s value).1 = setProcessed s value.Id tick := by
    unfold dispatch updateProcessed
    rcases hch with hc | ⟨channel, hc, hp⟩
    · rw [hc]; simp [hok]
    · rw [hc]; simp [hp, hok]
  rw [hst]
  exact setProcessed_marks s value.Id tick

theorem dispatchAll_marks (env : Env) (tick : Time) (events : List Event) (s : Store)
    (id : String)
    (hupd : (id, Effect.updateProcessed id tick) ∈ (dispatchAll env tick events s).2)
    (hok : env.updateFails id tick = false) :
    ∀ ce ∈ (dispatchAll env tick events s).1.events, ce.Id = id → ce.processed = some tick := by
  induction events generalizing s with
  | nil => simp [dispatchAll] at hupd
  | cons v rest ih =>
    simp only [dispatchAll] at hupd ⊢
    rw [List.mem_append] at hupd
    rcases hupd with h | h
    · rw [List.mem_map] at h
      obtain ⟨fx, hfx, heq⟩ := h
      simp only [Prod.mk.injEq] at heq
      obtain ⟨_, rfl⟩ := heq
      exact dispatchAll_keeps env tick rest _ id (dispatch_marks env tick s v id hfx hok)
    · exact ih _ h

/-- A cycle issues calls only for events the query selected. -/
theorem process_calls_selected (env : Env) (store : Store) (t : Time) (id : String) (fx : Effect)
    (h : (id, fx) ∈ (process env store t).2) :
    ∃ row ∈ selectDue store (tickWithZone t), row.Id = id ∧
      (recompute env (tickWithZone t) row).isSome = true := by
  unfold process at h
  simp only at h
  by_cases hsel : env.selectFails = true
  · simp [hsel] at h
  · rw [if_neg hsel] at h
    obtain ⟨value, hv, hid, _⟩ := (dispatchAll_mem env (tickWithZone t) _ store store id fx).1 h
    obtain ⟨row, hrow, hrid, _, hre⟩ := mergeRows_origin env (tickWithZone t) _ value hv
    exact ⟨row, hrow, hrid.trans hid, hre⟩

theorem eq_of_Id_eq (events : List Event) (h : (events.map (fun e => e.Id)).Nodup)
    (a b : Event) (ha : a ∈ events) (hb : b ∈ events) (hab : a.Id = b.Id) : a = b :=
  List.inj_on_of_nodup_map h ha hb hab

/-- The marker update of a matched event: without a bound channel it is issued
whatever channel resolution and post creation answer; with a bound channel it
is issued exactly when the post to that channel was created. -/
theorem marker_update_issued (env : Env) (store : Store) (t : Time) (value : Event)
    (hsel : env.selectFails = false)
    (hv : value ∈ mergeRows env (tickWithZone t) (selectDue store (tickWithZone t))) :
    (value.Channel = none →
      (value.Id, Effect.updateProcessed value.Id (tickWithZone t)) ∈ (process env store t).2) ∧
    (∀ channel, value.Channel = some channel →
      ((value.Id, Effect.updateProcessed value.Id (tickWithZone t)) ∈ (process env store t).2 ↔
        env.CreatePost (postModel env value (tickWithZone t) channel) = true)) := by
  have hproc : (process env store t).2 =
      (dispatchAll env (tickWithZone t)
        (mergeRows env (tickWithZone t) (selectDue store (tickWithZone t))) store).2 := by
    unfold process
    simp [hsel]
  rw [hproc]
  have hnd := mergeRows_nodup env (tickWithZone t) (selectDue store (tickWithZone t))
  constructor
  · intro hc
    rw [dispatchAll_mem env (tickWithZone t) _ store store]
    refine ⟨value, hv, rfl, ?_⟩
    rw [update_mem_dispatch]
    exact ⟨rfl, rfl, Or.inl hc⟩
  · intro channel hc
    rw [dispatchAll_mem env (tickWithZone t) _ store store]
    constructor
    · rintro ⟨v2, hv2, hid, hmem⟩
      have hv2eq : v2 = value := eq_of_Id_eq _ hnd v2 value hv2 hv hid
      subst hv2eq
      rw [update_mem_dispatch] at hmem
      obtain ⟨_, _, h | ⟨ch, hch, hp⟩⟩ := hmem
      · rw [hc] at h; cases h
      · rw [hc] at hch
        cases hch
        exact hp
    · intro hp
      refine ⟨value, hv, rfl, ?_⟩
      rw [update_mem_dispatch]
      exact ⟨rfl, rfl, Or.inr ⟨channel, hc, hp⟩⟩

theorem recompute_isSome_congr (env : Env) (tick : Time) (row row2 : EventFromDb)
    (h : row.toEvent = row2.toEvent) :
    (recompute env tick row).isSome = (recompute env tick row2).isSome := by
  cases row with
  | mk ev u =>
    cases row2 with
    | mk ev2 u2 =>
      simp only at h
      subst h
      unfold recompute
      simp only
      by_cases hrec : ev.Recurrent = true
      · rw [if_pos hrec, if_pos hrec]
        cases env.StrToRRule ev.Recurrence with
        | none => rfl
        | some rule =>
          simp only
          split
          · rfl
          · split <;> rfl
      · rw [if_neg hrec, if_neg hrec]
        rfl

theorem midnightUTC_reading (s : Time) :
    (midnightUTC s).wallDay = s.wallDay ∧ (midnightUTC s).nsOfDay = 0 ∧
      (midnightUTC s).loc = UTC := by
  have h := Date_reading s.wallDay 0 0 0 0 UTC (by simp [nsPerSecond])
    (by simp [nsPerSecond, nsPerDay]) (shows_fixed UTC rfl _)
  refine ⟨h.1, ?_, rfl⟩
  have h2 := h.2
  simp only [nsPerSecond] at h2
  simpa using h2

theorem groupRecipients_eq (env : Env) (event : Event) :
    groupRecipients env event =
      event.Attendees ++ (if event.Owner ∈ event.Attendees then [] else [event.Owner])
        ++ [env.BotId] := by
  unfold groupRecipients
  by_cases h : event.Owner ∈ event.Attendees
  · have hc : contains event.Attendees event.Owner = true := (contains_iff _ _).2 h
    simp [h, hc]
  · have hc : contains event.Attendees event.Owner = false := by
      rw [Bool.eq_false_iff]; intro hc; exact h ((contains_iff _ _).1 hc)
    simp [h, hc]

theorem createPost_not_mem_ws (event : Event) (processTime : Time) (p : Post) :
    Effect.createPost p ∉ sendWsNotification event processTime := by
  rw [sendWsNotification_eq]
  intro h
  rw [List.mem_map] at h
  obtain ⟨_, _, h⟩ := h
  cases h

theorem getGroup_not_mem_ws (event : Event) (processTime : Time) (l : List String) :
    Effect.getGroupChannel l ∉ sendWsNotification event processTime := by
  rw [sendWsNotification_eq]
  intro h
  rw [List.mem_map] at h
  obtain ⟨_, _, h⟩ := h
  cases h

theorem getDirect_not_mem_ws (event : Event) (processTime : Time) (a b : String) :
    Effect.getDirectChannel a b ∉ sendWsNotification event processTime := by
  rw [sendWsNotification_eq]
  intro h
  rw [List.mem_map] at h
  obtain ⟨_, _, h⟩ := h
  cases h

/-- The calls of `dispatch` other than broadcasts and the marker update, for
an event with a bound channel: the post to that channel. -/
theorem dispatch_channel (env : Env) (tick : Time) (s : Store) (value : Event)
    (channel : String) (hc : value.Channel = some channel) (fx : Effect) :
    fx ∈ (dispatch env tick s value).2 ↔
      fx ∈ sendWsNotification value tick ∨
      fx = Effect.createPost (postModel env value tick channel) ∨
      (fx = Effect.updateProcessed value.Id tick ∧
        env.CreatePost (postModel env value tick channel) = true) := by
  unfold dispatch updateProcessed
  rw [hc]
  simp only
  by_cases hp : env.CreatePost (postModel env value tick channel) = true
  · by_cases hf : env.updateFails value.Id tick = true
    · simp [hp, hf]
    · simp [hp, hf]
  · simp [hp]

/-- The calls of `dispatch` for an event without a bound channel. -/
theorem dispatch_no_channel (env : Env) (tick : Time) (s : Store) (value : Event)
    (hc : value.Channel = none) (fx : Effect) :
    fx ∈ (dispatch env tick s value).2 ↔
      fx ∈ sendWsNotification value tick ∨
      fx ∈ sendGroupOrPersonalEventNotification env value tick ∨
      fx = Effect.updateProcessed value.Id tick := by
  unfold dispatch updateProcessed
  rw [hc]
  simp only
  by_cases hf : env.updateFails value.Id tick = true
  · simp [hf, or_assoc]
  · simp [hf, or_assoc]

theorem chat_direct (env : Env) (value : Event) (tick : Time) (hatt : value.Attendees = []) :
    sendGroupOrPersonalEventNotification env value tick =
      Effect.getDirectChannel value.Owner env.BotId ::
        (env.GetDirectChannel value.Owner env.BotId).toList.map
          (fun dChannel => Effect.createPost (postModel env value tick dChannel)) := by
  unfold sendGroupOrPersonalEventNotification
  simp only [hatt, List.append_nil, List.length_nil, if_true]
  cases env.GetDirectChannel value.Owner env.BotId <;> rfl

theorem chat_group (env : Env) (value : Event) (tick : Time) (hatt : value.Attendees ≠ []) :
    sendGroupOrPersonalEventNotification env value tick =
      Effect.getGroupChannel (groupRecipients env value) ::
        (env.GetGroupChannel (groupRecipients env value)).toList.map
          (fun foundChannel => Effect.createPost (postModel env value tick foundChannel)) := by
  have hlen : ¬ (([] : List String) ++ value.Attendees).length = 0 := by
    simp [hatt]
  unfold sendGroupOrPersonalEventNotification
  simp only
  rw [if_neg hlen]
  cases env.GetGroupChannel (groupRecipients env value) <;> rfl

/-! ### Attendee merging -/

theorem scanRow_append (env : Env) (tick : Time) (events : List Event) (row : EventFromDb)
    (e0 : Event) (user : String) (hs : env.scanFails row = false)
    (hl : lookupEvent events row.Id = some e0) (hu : row.User = some user) :
    scanRow env tick events row = appendAttendee events row.Id user := by
  unfold scanRow
  simp [hs, hl, hu]

theorem scanRow_new (env : Env) (tick : Time) (events : List Event) (row out : EventFromDb)
    (hs : env.scanFails row = false) (hl : lookupEvent events row.Id = none)
    (hr : recompute env tick row = some out) :
    scanRow env tick events row = events ++ [newEvent out] := by
  have hid : (newEvent out).Id = row.Id := (recompute_Id env tick row out hr).1
  unfold scanRow
  simp only [hs, hl, hr, Bool.false_eq_true, if_false]
  unfold putEvent
  rw [hid, hl]
  simp

theorem newEvent_attendees (row : EventFromDb) :
    (newEvent row).Attendees = [row].filterMap (fun r => r.User) := by
  unfold newEvent
  cases h : row.User <;> simp [h]

theorem scanRow_merge_step (env : Env) (tick : Time) (pre : List EventFromDb)
    (acc : List Event) (r : EventFromDb)
    (hs : env.scanFails r = false) (hplain : r.Recurrent = false)
    (hnull : ∀ r1 ∈ pre, r1.Id = r.Id → r.User ≠ none)
    (I2 : ∀ id, id ∈ acc.map (fun e => e.Id) ↔ id ∈ pre.map (fun row => row.Id))
    (I3 : ∀ e ∈ acc, e.Attendees =
      (pre.filter (fun row => row.Id == e.Id)).filterMap (fun row => row.User))
    (I4 : ∀ e ∈ acc, ∃ first, pre.find? (fun row => row.Id == e.Id) = some first ∧
      { e with Attendees := [] } = { newEvent first with Attendees := [] }) :
    (∀ id, id ∈ (scanRow env tick acc r).map (fun e => e.Id) ↔
      id ∈ (pre ++ [r]).map (fun row => row.Id)) ∧
    (∀ e ∈ scanRow env tick acc r, e.Attendees =
      ((pre ++ [r]).filter (fun row => row.Id == e.Id)).filterMap (fun row => row.User)) ∧
    (∀ e ∈ scanRow env tick acc r, ∃ first,
      (pre ++ [r]).find? (fun row => row.Id == e.Id) = some first ∧
      { e with Attendees := [] } = { newEvent first with Attendees := [] }) := by
  have hfind : ∀ e ∈ acc, ∀ first, pre.find? (fun row => row.Id == e.Id) = some first →
      (pre ++ [r]).find? (fun row => row.Id == e.Id) = some first := by
    intro e _ first hf
    rw [List.find?_append, hf]
    rfl
  cases hl : lookupEvent acc r.Id with
  | some e0 =>
    have hin : r.Id ∈ acc.map (fun e => e.Id) := (lookupEvent_isSome _ _).1 (by rw [hl]; rfl)
    have hpre : r.Id ∈ pre.map (fun row => row.Id) := (I2 _).1 hin
    obtain ⟨r1, hr1, hr1id⟩ := List.mem_map.1 hpre
    have hne := hnull r1 hr1 hr1id
    cases hu : r.User with
    | none => exact absurd hu hne
    | some user =>
      rw [scanRow_append env tick acc r e0 user hs hl hu]
      refine ⟨?_, ?_, ?_⟩
      · intro id
        rw [appendAttendee_ids, I2]
        simp only [List.map_append, List.mem_append, List.map_cons, List.map_nil,
          List.mem_singleton]
        constructor
        · exact Or.inl
        · rintro (h | h)
          · exact h
          · rw [h]; exact hpre
      · intro e he
        unfold appendAttendee at he
        rw [List.mem_map] at he
        obtain ⟨e1, he1, rfl⟩ := he
        by_cases hid : e1.Id = r.Id
        · simp only [beq_iff_eq, hid, if_true]
          rw [I3 e1 he1, hid]
          simp [List.filter_append, hu]
        · simp only [beq_iff_eq, hid, if_false]
          rw [I3 e1 he1]
          have : (r.Id == e1.Id) = false := by
            rw [beq_eq_false_iff_ne]; exact fun h => hid h.symm
          simp [List.filter_append, this]
      · intro e he
        unfold appendAttendee at he
        rw [List.mem_map] at he
        obtain ⟨e1, he1, rfl⟩ := he
        obtain ⟨first, hf, heq⟩ := I4 e1 he1
        by_cases hid : e1.Id = r.Id
        · have hb : (e1.Id == r.Id) = true := by simpa using hid
          rw [if_pos hb]
          exact ⟨first, hfind e1 he1 first hf, heq⟩
        · have hb : ¬ (e1.Id == r.Id) = true := by simpa using hid
          rw [if_neg hb]
          exact ⟨first, hfind e1 he1 first hf, heq⟩
  | none =>
    have hnin : r.Id ∉ acc.map (fun e => e.Id) := by
      intro hin
      have := (lookupEvent_isSome _ _).2 hin
      rw [hl] at this
      cases this
    have hnpre : r.Id ∉ pre.map (fun row => row.Id) := fun h => hnin ((I2 _).2 h)
    have hnone : ∀ row ∈ pre, ¬ row.Id = r.Id := by
      intro row hrow hid
      exact hnpre (List.mem_map.2 ⟨row, hrow, hid⟩)
    rw [scanRow_new env tick acc r r hs hl (recompute_plain env tick r hplain)]
    refine ⟨?_, ?_, ?_⟩
    · intro id
      simp only [List.map_append, List.mem_append, List.map_cons, List.map_nil,
        List.mem_singleton]
      rw [I2]
      rfl
    · intro e he
      rw [List.mem_append] at he
      rcases he with he | he
      · have hne : ¬ r.Id = e.Id := by
          intro h
          exact hnin (List.mem_map.2 ⟨e, he, h.symm⟩)
        rw [I3 e he]
        have : (r.Id == e.Id) = false := by
          rw [beq_eq_false_iff_ne]; exact hne
        simp [List.filter_append, this]
      · simp only [List.mem_singleton] at he
        subst he
        have hfil : pre.filter (fun row => row.Id == (newEvent r).Id) = [] := by
          rw [List.filter_eq_nil_iff]
          intro row hrow
          simp only [beq_iff_eq]
          exact hnone row hrow
        rw [List.filter_append, hfil, newEvent_attendees]
        have : (newEvent r).Id = r.Id := rfl
        simp [this]
    · intro e he
      rw [List.mem_append] at he
      rcases he with he | he
      · obtain ⟨first, hf, heq⟩ := I4 e he
        exact ⟨first, hfind e he first hf, heq⟩
      · simp only [List.mem_singleton] at he
        subst he
        refine ⟨r, ?_, rfl⟩
        have hpn : pre.find? (fun row => row.Id == (newEvent r).Id) = none := by
          rw [List.find?_eq_none]
          intro row hrow
          simp only [beq_iff_eq]
          exact hnone row hrow
        rw [List.find?_append, hpn]
        have : (newEvent r).Id = r.Id := rfl
        simp [this]

theorem foldl_scanRow_merge (env : Env) (tick : Time) (rows pre : List EventFromDb)
    (acc : List Event)
    (hs : ∀ row ∈ rows, env.scanFails row = false)
    (hplain : ∀ row ∈ rows, row.Recurrent = false)
    (hnull : (pre ++ rows).Pairwise (fun r1 r2 => r1.Id = r2.Id → r2.User ≠ none))
    (I2 : ∀ id, id ∈ acc.map (fun e => e.Id) ↔ id ∈ pre.map (fun row => row.Id))
    (I3 : ∀ e ∈ acc, e.Attendees =
      (pre.filter (fun row => row.Id == e.Id)).filterMap (fun row => row.User))
    (I4 : ∀ e ∈ acc, ∃ first, pre.find? (fun row => row.Id == e.Id) = some first ∧
      { e with Attendees := [] } = { newEvent first with Attendees := [] }) :
    (∀ id, id ∈ (rows.foldl (scanRow env tick) acc).map (fun e => e.Id) ↔
      id ∈ (pre ++ rows).map (fun row => row.Id)) ∧
    (∀ e ∈ rows.foldl (scanRow env tick) acc, e.Attendees =
      ((pre ++ rows).filter (fun row => row.Id == e.Id)).filterMap (fun row => row.User)) ∧
    (∀ e ∈ rows.foldl (scanRow env tick) acc, ∃ first,
      (pre ++ rows).find? (fun row => row.Id == e.Id) = some first ∧
      { e with Attendees := [] } = { newEvent first with Attendees := [] }) := by
  induction rows generalizing pre acc with
  | nil =>
    simp only [List.append_nil, List.foldl_nil]
    exact ⟨I2, I3, I4⟩
  | cons r rest ih =>
    have hsplit : pre ++ r :: rest = (pre ++ [r]) ++ rest := by simp
    rw [hsplit] at hnull ⊢
    have hn1 : ∀ r1 ∈ pre, r1.Id = r.Id → r.User ≠ none := by
      intro r1 hr1
      have h1 := (List.pairwise_append.1 hnull).1
      have h2 := (List.pairwise_append.1 h1).2.2
      exact h2 r1 hr1 r (List.mem_singleton.2 rfl)
    obtain ⟨J2, J3, J4⟩ := scanRow_merge_step env tick pre acc r
      (hs r (List.mem_cons_self _ _)) (hplain r (List.mem_cons_self _ _)) hn1 I2 I3 I4
    rw [List.foldl_cons]
    exact ih (pre ++ [r]) (scanRow env tick acc r)
      (fun row hrow => hs row (List.mem_cons_of_mem _ hrow))
      (fun row hrow => hplain row (List.mem_cons_of_mem _ hrow)) hnull J2 J3 J4

/-- The fold over rows in which no row with a null member follows an earlier
row of the same id. -/
theorem mergeRows_rows (env : Env) (tick : Time) (rows : List EventFromDb)
    (hs : ∀ row ∈ rows, env.scanFails row = false)
    (hplain : ∀ row ∈ rows, row.Recurrent = false)
    (hnull : rows.Pairwise (fun r1 r2 => r1.Id = r2.Id → r2.User ≠ none)) :
    ((mergeRows env tick rows).map (fun e => e.Id)).Nodup ∧
    (∀ id, id ∈ (mergeRows env tick rows).map (fun e => e.Id) ↔
      id ∈ rows.map (fun row => row.Id)) ∧
    (∀ e ∈ mergeRows env tick rows, e.Attendees =
      (rows.filter (fun row => row.Id == e.Id)).filterMap (fun row => row.User)) ∧
    (∀ e ∈ mergeRows env tick rows, ∃ first,
      rows.find? (fun row => row.Id == e.Id) = some first ∧
      { e with Attendees := [] } = { newEvent first with Attendees := [] }) := by
  have h := foldl_scanRow_merge env tick rows [] [] hs hplain (by simpa using hnull)
    (by simp) (by simp) (by simp)
  simp only [List.nil_append] at h
  exact ⟨mergeRows_nodup env tick rows, h⟩

theorem joinMembers_rows (members : List MemberRow) (ce : StoredEvent) :
    (∀ row ∈ joinMembers members ce, row.Id = ce.Id) ∧
    ((∃ row, joinMembers members ce = [row]) ∨
      ∀ row ∈ joinMembers members ce, row.User ≠ none) := by
  unfold joinMembers
  split
  · refine ⟨?_, Or.inl ⟨_, rfl⟩⟩
    intro row hrow
    simp only [List.mem_singleton] at hrow
    subst hrow
    rfl
  · refine ⟨?_, Or.inr ?_⟩
    · intro row hrow
      rw [List.mem_map] at hrow
      obtain ⟨m, _, rfl⟩ := hrow
      rfl
    · intro row hrow
      rw [List.mem_map] at hrow
      obtain ⟨m, _, rfl⟩ := hrow
      simp

/-- In the result of the left join over a table with unique event ids, a row
with a null member never follows a row of the same id. -/
theorem selectDue_pairwise (store : Store) (tick : Time)
    (hkey : (store.events.map (fun ce => ce.Id)).Nodup) :
    (selectDue store tick).Pairwise (fun r1 r2 => r1.Id = r2.Id → r2.User ≠ none) := by
  unfold selectDue
  rw [List.pairwise_flatMap]
  constructor
  · intro ce _
    rcases (joinMembers_rows store.members ce).2 with ⟨row, hrow⟩ | hall
    · rw [hrow]
      exact List.pairwise_singleton _ _
    · have htriv : (joinMembers store.members ce).Pairwise (fun _ _ => True) :=
        List.pairwise_of_forall (fun _ _ => trivial)
      exact htriv.imp_of_mem (fun _ hb _ _ => hall _ hb)
  · have hpw : store.events.Pairwise (fun a b => a.Id ≠ b.Id) := by
      have := hkey
      rw [List.Nodup, List.pairwise_map] at this
      exact this
    refine (hpw.filter _).imp ?_
    intro a b hab x hx y hy hxy
    exfalso
    apply hab
    rw [← (joinMembers_rows store.members a).1 x hx, ← (joinMembers_rows store.members b).1 y hy]
    exact hxy

theorem foldl_scanRow_decoded (env : Env) (tick : Time) (rows : List EventFromDb)
    (acc : List Event) :
    rows.foldl (scanRow env tick) acc = (decodedRows env rows).foldl (scanRow env tick) acc := by
  induction rows generalizing acc with
  | nil => rfl
  | cons r rest ih =>
    unfold decodedRows
    rw [List.foldl_cons, List.filter_cons]
    by_cases hs : env.scanFails r = true
    · have hskip : scanRow env tick acc r = acc := by
        unfold scanRow
        rw [if_pos hs]
      rw [hskip]
      simp only [hs, Bool.not_true, Bool.false_eq_true, if_false]
      exact ih acc
    · have hs2 : env.scanFails r = false := by simpa using hs
      simp only [hs2, Bool.not_false, if_true, List.foldl_cons]
      exact ih _

/-- A row that fails to decode leaves no trace in the map. -/
theorem mergeRows_decoded (env : Env) (tick : Time) (rows : List EventFromDb) :
    mergeRows env tick rows = mergeRows env tick (decodedRows env rows) :=
  foldl_scanRow_decoded env tick rows []

/-- Claim C1 (idempotency of a tick).  Let a cycle at time `t` issue the marker
update of event `id` at its tick, and let that update not fail.  Then every
stored event of that id carries the tick as its `processed` marker, the
candidate query of a later cycle with the same tick returns no row of that
event, and that later cycle (in any environment) issues no broadcast, post or
marker update for it. -/
theorem process_idempotent (env env2 : Env) (store : Store) (t t2 : Time) (id : String)
    (hsame : tickWithZone t2 = tickWithZone t)
    (hupd : (id, Effect.updateProcessed id (tickWithZone t)) ∈ (process env store t).2)
    (hok : env.updateFails id (tickWithZone t) = false) :
    (∀ ce ∈ (process env store t).1.events, ce.Id = id →
      ce.processed = some (tickWithZone t)) ∧
    (∀ row ∈ selectDue (process env store t).1 (tickWithZone t2), row.Id ≠ id) ∧
    (∀ fx, (id, fx) ∉ (process env2 (process env store t).1 t2).2) := by
  have hmark : ∀ ce ∈ (process env store t).1.events, ce.Id = id →
      ce.processed = some (tickWithZone t) := by
    unfold process at hupd ⊢
    simp only at hupd ⊢
    by_cases hsel : env.selectFails = true
    · simp [hsel] at hupd
    · rw [if_neg hsel] at hupd ⊢
      exact dispatchAll_marks env (tickWithZone t) _ store id hupd hok
  have hrows : ∀ row ∈ selectDue (process env store t).1 (tickWithZone t2), row.Id ≠ id := by
    intro row hrow hid
    obtain ⟨ce, hce, hdue, heq⟩ := mem_selectDue _ _ row hrow
    have hceid : ce.Id = id := by
      have : row.Id = ce.Id := congrArg Event.Id heq
      rw [← this]; exact hid
    have hp := hmark ce hce hceid
    rw [← hsame] at hp
    rw [isDue_processed _ ce hp] at hdue
    cases hdue
  refine ⟨hmark, hrows, ?_⟩
  intro fx hfx
  obtain ⟨row, hrow, hid, _⟩ := process_calls_selected env2 _ t2 id fx hfx
  exact hrows row hrow hid

/-- Witness for C1: the event of `directStore` is dispatched at 09:00:12 and the
cycle fifteen seconds later, with the same tick, issues nothing for it. -/
theorem process_idempotent_witness :
    tickWithZone newYearTickLater = tickWithZone newYearTick ∧
    ("e1", Effect.updateProcessed "e1" (tickWithZone newYearTick))
      ∈ (process okEnv directStore newYearTick).2 ∧
    okEnv.updateFails "e1" (tickWithZone newYearTick) = false ∧
    ((∀ ce ∈ (process okEnv directStore newYearTick).1.events, ce.Id = "e1" →
        ce.processed = some (tickWithZone newYearTick)) ∧
      (∀ row ∈ selectDue (process okEnv directStore newYearTick).1
          (tickWithZone newYearTickLater), row.Id ≠ "e1") ∧
      (∀ fx, ("e1", fx) ∉
        (process okEnv (process okEnv directStore newYearTick).1 newYearTickLater).2)) :=
  ⟨by decide, by decide, by decide,
    process_idempotent okEnv okEnv directStore newYearTick newYearTickLater "e1"
      (by decide) (by decide) (by decide)⟩

/-- Claim C2 at a matched event with a bound channel whose post creation fails.
The event of `channelStore` is matched and the creation of its post fails; the
cycle issues no marker update for it and leaves the store as it was, and the
cycle fifteen seconds later, at the same tick, broadcasts and posts again.  For
the event of `directStore`, which has no bound channel, the same failing post
creation is followed by the marker update, and the later cycle issues nothing. -/
theorem marker_skipped_on_post_failure :
    postFailEnv.selectFails = false ∧
    plainEvent "e2" "u1" (some "town-square") (unixUTC 1704099600)
      ∈ mergeRows postFailEnv (tickWithZone newYearTick)
          (selectDue channelStore (tickWithZone newYearTick)) ∧
    postFailEnv.CreatePost
      (postModel postFailEnv (plainEvent "e2" "u1" (some "town-square") (unixUTC 1704099600))
        (tickWithZone newYearTick) "town-square") = false ∧
    ("e2", Effect.updateProcessed "e2" (tickWithZone newYearTick))
      ∉ (process postFailEnv channelStore newYearTick).2 ∧
    (process postFailEnv channelStore newYearTick).1 = channelStore ∧
    tickWithZone newYearTickLater = tickWithZone newYearTick ∧
    (process postFailEnv (process postFailEnv channelStore newYearTick).1 newYearTickLater).2
      = [("e2", Effect.publishWebSocketEvent wsEventOccur
            { id := "e2", title := "title e2", channel := none } "u1"),
          ("e2", Effect.createPost
            { UserId := "bot", ChannelId := "town-square",
              AttachmentText := ":dart: *title e2* :dart:\n", AttachmentColor := "#D0D0D0" })] ∧
    ("e1", Effect.updateProcessed "e1" (tickWithZone newYearTick))
      ∈ (process postFailEnv directStore newYearTick).2 ∧
    (process postFailEnv (process postFailEnv directStore newYearTick).1 newYearTickLater).2
      = [] := by
  decide

/-- Claim C3, amended.  The chat calls `process` issues for a matched event.
With a bound channel: the post to that channel, no other post and no channel
resolution, whatever the attendees.  Without channel and without attendees:
the direct channel of owner and bot is resolved, and the post goes to the
resolved channel and nowhere else.  Without channel and with attendees: the
group channel of `groupRecipients` is resolved and of no other list, the post
goes to the resolved channel and nowhere else, the list holds every attendee,
the owner and the bot, and for a duplicate-free attendee list and an owner who
is not the bot the owner occurs in it exactly once. -/
theorem chat_target_selection (env : Env) (tick : Time) (s : Store) (value : Event) :
    (∀ channel, value.Channel = some channel →
      Effect.createPost (postModel env value tick channel) ∈ (dispatch env tick s value).2 ∧
      (∀ post, Effect.createPost post ∈ (dispatch env tick s value).2 →
        post = postModel env value tick channel) ∧
      (∀ a b, Effect.getDirectChannel a b ∉ (dispatch env tick s value).2) ∧
      (∀ l, Effect.getGroupChannel l ∉ (dispatch env tick s value).2)) ∧
    (value.Channel = none → value.Attendees = [] →
      Effect.getDirectChannel value.Owner env.BotId ∈ (dispatch env tick s value).2 ∧
      (∀ post, Effect.createPost post ∈ (dispatch env tick s value).2 ↔
        ∃ dChannel, env.GetDirectChannel value.Owner env.BotId = some dChannel ∧
          post = postModel env value tick dChannel) ∧
      (∀ l, Effect.getGroupChannel l ∉ (dispatch env tick s value).2)) ∧
    (value.Channel = none → value.Attendees ≠ [] →
      Effect.getGroupChannel (groupRecipients env value) ∈ (dispatch env tick s value).2 ∧
      (∀ l, Effect.getGroupChannel l ∈ (dispatch env tick s value).2 →
        l = groupRecipients env value) ∧
      (∀ a b, Effect.getDirectChannel a b ∉ (dispatch env tick s value).2) ∧
      (∀ post, Effect.createPost post ∈ (dispatch env tick s value).2 ↔
        ∃ foundChannel, env.GetGroupChannel (groupRecipients env value) = some foundChannel ∧
          post = postModel env value tick foundChannel) ∧
      (∀ a ∈ value.Attendees, a ∈ groupRecipients env value) ∧
      value.Owner ∈ groupRecipients env value ∧
      env.BotId ∈ groupRecipients env value ∧
      (value.Attendees.Nodup → value.Owner ≠ env.BotId →
        (groupRecipients env value).count value.Owner = 1)) := by
  refine ⟨?_, ?_, ?_⟩
  · intro channel hc
    have hd := dispatch_channel env tick s value channel hc
    refine ⟨(hd _).2 (Or.inr (Or.inl rfl)), ?_, ?_, ?_⟩
    · intro post hpost
      rcases (hd _).1 hpost with h | h | h
      · exact absurd h (createPost_not_mem_ws _ _ _)
      · simpa using h
      · cases h.1
    · intro a b hmem
      rcases (hd _).1 hmem with h | h | h
      · exact absurd h (getDirect_not_mem_ws _ _ _ _)
      · cases h
      · cases h.1
    · intro l hmem
      rcases (hd _).1 hmem with h | h | h
      · exact absurd h (getGroup_not_mem_ws _ _ _)
      · cases h
      · cases h.1
  · intro hc hatt
    have hd := dispatch_no_channel env tick s value hc
    have hchat := chat_direct env value tick hatt
    refine ⟨?_, ?_, ?_⟩
    · rw [hd, hchat]
      right; left
      simp
    · intro post
      rw [hd, hchat]
      constructor
      · rintro (h | h | h)
        · exact absurd h (createPost_not_mem_ws _ _ _)
        · simp only [List.mem_cons, List.mem_map, Option.mem_toList, Option.mem_def] at h
          rcases h with h | ⟨dChannel, hg, h⟩
          · cases h
          · simp only [Effect.createPost.injEq] at h
            exact ⟨dChannel, hg, h.symm⟩
        · cases h
      · rintro ⟨dChannel, hg, rfl⟩
        right; left
        simp [hg]
    · intro l hmem
      rw [hd, hchat] at hmem
      rcases hmem with h | h | h
      · exact absurd h (getGroup_not_mem_ws _ _ _)
      · simp at h
      · cases h
  · intro hc hatt
    have hd := dispatch_no_channel env tick s value hc
    have hchat := chat_group env value tick hatt
    have hrec := groupRecipients_eq env value
    refine ⟨?_, ?_, ?_, ?_, ?_, ?_, ?_, ?_⟩
    · rw [hd, hchat]
      right; left
      simp
    · intro l hmem
      rw [hd, hchat] at hmem
      rcases hmem with h | h | h
      · exact absurd h (getGroup_not_mem_ws _ _ _)
      · simpa using h
      · cases h
    · intro a b hmem
      rw [hd, hchat] at hmem
      rcases hmem with h | h | h
      · exact absurd h (getDirect_not_mem_ws _ _ _ _)
      · simp at h
      · cases h
    · intro post
      rw [hd, hchat]
      constructor
      · rintro (h | h | h)
        · exact absurd h (createPost_not_mem_ws _ _ _)
        · simp only [List.mem_cons, List.mem_map, Option.mem_toList, Option.mem_def] at h
          rcases h with h | ⟨foundChannel, hg, h⟩
          · cases h
          · simp only [Effect.createPost.injEq] at h
            exact ⟨foundChannel, hg, h.symm⟩
        · cases h
      · rintro ⟨foundChannel, hg, rfl⟩
        right; left
        simp [hg]
    · intro a ha
      rw [hrec]
      simp [ha]
    · rw [hrec]
      by_cases h : value.Owner ∈ value.Attendees
      · simp [h]
      · simp [h]
    · rw [hrec]
      simp
    · intro hnd hne
      rw [hrec, List.count_append, List.count_singleton]
      have h1 := List.count_eq_one_of_mem (nodup_with_owner value.Attendees value.Owner hnd)
        ((mem_with_owner _ _ _).2 (Or.inr rfl))
      rw [h1]
      have : (env.BotId == value.Owner) = false := by
        rw [beq_eq_false_iff_ne]
        exact fun h => hne h.symm
      simp [this]

/-- Witness for C3: for attendees `A`, `B` and owner `O` the group channel of
`A`, `B`, `O` and the bot is resolved. -/
theorem chat_target_selection_witness :
    groupEvent.Channel = none ∧ groupEvent.Attendees ≠ [] ∧
    (Effect.getGroupChannel (groupRecipients okEnv groupEvent)
      ∈ (dispatch okEnv (tickWithZone newYearTick) directStore groupEvent).2 ∧
    groupRecipients okEnv groupEvent = ["A", "B", "O", "bot"]) :=
  ⟨by decide, by decide,
    ((chat_target_selection okEnv (tickWithZone newYearTick) directStore groupEvent).2.2
      (by decide) (by decide)).1, by decide⟩

/-- Counterexample for C3: an event owned by the bot, with the duplicate-free
attendee list `a`; the group channel is resolved for `a`, `bot`, `bot`, in
which the owner occurs twice. -/
theorem owner_twice_counterexample :
    botOwnedEvent.Channel = none ∧ botOwnedEvent.Attendees ≠ [] ∧
    botOwnedEvent.Attendees.Nodup ∧
    Effect.getGroupChannel ["a", "bot", "bot"]
      ∈ (dispatch okEnv (tickWithZone newYearTick) directStore botOwnedEvent).2 ∧
    List.count botOwnedEvent.Owner ["a", "bot", "bot"] = 2 := by
  decide

/-- Claim C4, amended.  For a recurrent row whose rule parses: the rule is
anchored at midnight UTC of the stored start date, the window starts at
midnight UTC of the day of the tick, and the row is kept exactly when the rule
has an instant in the inclusive window that ends at the tick plus the stored
duration (`tick + (End - Start)`, not midnight plus the duration).  When the
row is not kept, a cycle over a store whose events of that id have the columns
of the row issues no call for that event. -/
theorem recurrence_day_gating (env : Env) (t : Time) (row : EventFromDb) (rule : RRule)
    (hrec : row.Recurrent = true) (hp : env.StrToRRule row.Recurrence = some rule) :
    ((midnightUTC row.Start).wallDay = row.Start.wallDay ∧
      (midnightUTC row.Start).nsOfDay = 0 ∧ (midnightUTC row.Start).loc = UTC) ∧
    ((midnightUTC (tickWithZone t)).wallDay = (t.In UTC).wallDay ∧
      (midnightUTC (tickWithZone t)).nsOfDay = 0 ∧ (midnightUTC (tickWithZone t)).loc = UTC) ∧
    ((recompute env (tickWithZone t) row).isSome = true ↔
      1 ≤ (rule.between (midnightUTC row.Start) (midnightUTC (tickWithZone t))
            ((tickWithZone t).Add (row.End.Sub row.Start)) true).length) ∧
    (∀ store : Store, (∀ ce ∈ store.events, ce.Id = row.Id → ce.toEvent = row.toEvent) →
      (recompute env (tickWithZone t) row).isSome = false →
      ∀ fx, (row.Id, fx) ∉ (process env store t).2) := by
  refine ⟨midnightUTC_reading _, ?_, ?_, ?_⟩
  · have h := midnightUTC_reading (tickWithZone t)
    rw [tickWithZone_wallDay] at h
    exact h
  · have h := recompute_none_iff env (tickWithZone t) row rule hrec hp
    constructor
    · intro hs
      by_contra hlt
      have : recompute env (tickWithZone t) row = none := h.2 (by omega)
      rw [this] at hs
      cases hs
    · intro hlen
      cases hr : recompute env (tickWithZone t) row with
      | none => have := h.1 hr; omega
      | some out => rfl
  · intro store hstore hnone fx hfx
    obtain ⟨r2, hr2, hid, hsome⟩ := process_calls_selected env store t row.Id fx hfx
    obtain ⟨ce, hce, _, heq⟩ := mem_selectDue _ _ r2 hr2
    have hceid : ce.Id = row.Id := by
      have : r2.Id = ce.Id := congrArg Event.Id heq
      rw [← this]; exact hid
    have hev : r2.toEvent = row.toEvent := heq.trans (hstore ce hce hceid)
    rw [recompute_isSome_congr env _ r2 row hev, hnone] at hsome
    cases hsome

/-- Witness for C4: the weekly Monday event at the tick of Monday 2024-01-08. -/
theorem recurrence_day_gating_witness :
    mondayRow.Recurrent = true ∧
    okEnv.StrToRRule mondayRow.Recurrence = some weeklyRule ∧
    ((recompute okEnv (tickWithZone nextMondayTick) mondayRow).isSome = true ↔
      1 ≤ (weeklyRule.between (midnightUTC mondayRow.Start)
            (midnightUTC (tickWithZone nextMondayTick))
            ((tickWithZone nextMondayTick).Add (mondayRow.End.Sub mondayRow.Start))
            true).length) :=
  ⟨by decide, rfl,
    (recurrence_day_gating okEnv nextMondayTick mondayRow weeklyRule (by decide) rfl).2.2.1⟩

/-- Counterexample for C4: a weekly Thursday event, 23:00 to 01:00, at the tick
of Wednesday 2024-01-10 23:00.  The rule has no instant between Wednesday
midnight and Wednesday midnight plus two hours, yet the row is kept: the
window of the code reaches to Thursday 01:00 and holds Thursday midnight. -/
theorem day_gating_counterexample :
    thursdayRow.Recurrent = true ∧
    okEnv.StrToRRule thursdayRow.Recurrence = some weeklyRule ∧
    (recompute okEnv (tickWithZone wednesdayLateTick) thursdayRow).isSome = true ∧
    weeklyRule.between (midnightUTC thursdayRow.Start)
      (midnightUTC (tickWithZone wednesdayLateTick))
      ((midnightUTC (tickWithZone wednesdayLateTick)).Add
        (thursdayRow.End.Sub thursdayRow.Start)) true = [] :=
  ⟨by decide, rfl, by decide, by decide⟩

/-- Claim C6, amended.  For a recurrent row kept at the tick: if its alert kind
is not "none", the alert time of the dispatched event is the recomputed start
minus the offset of the alert kind (zero for a kind outside the table); if its
alert kind is "none", the alert time is the one stored on the row, unchanged. -/
theorem recompute_alert_time (env : Env) (tick : Time) (row out : EventFromDb)
    (hrec : row.Recurrent = true) (h : recompute env tick row = some out) :
    (row.Alert ≠ env.EventAlertNone →
      (newEvent out).AlertTime =
        some ((newEvent out).Start.Add (-((env.EventAlertDurationMap row.Alert).getD 0)))) ∧
    (row.Alert = env.EventAlertNone → (newEvent out).AlertTime = row.AlertTime) := by
  obtain ⟨rule, _, _, _, _, _, ha⟩ := recompute_some env tick row out hrec h
  have hS : (newEvent out).Start = out.Start := rfl
  have hA : (newEvent out).AlertTime = out.AlertTime := rfl
  rw [hS, hA, ha]
  constructor
  · intro hne
    rw [if_pos hne]
    simp
  · intro heq
    have : ¬ (row.Alert ≠ env.EventAlertNone) := fun hne => hne heq
    rw [if_neg this]

/-- Witness for C6: a fifteen-minute alert on the 09:00 start of Monday
2024-01-08 gives 08:45 that day. -/
theorem recompute_alert_time_witness :
    mondayRow.Recurrent = true ∧
    recompute okEnv (tickWithZone nextMondayTick) mondayRow = some mondayOut ∧
    mondayRow.Alert ≠ okEnv.EventAlertNone ∧
    (newEvent mondayOut).AlertTime =
      some ((newEvent mondayOut).Start.Add
        (-((okEnv.EventAlertDurationMap mondayRow.Alert).getD 0))) ∧
    (newEvent mondayOut).Start = unixUTC 1704704400 ∧
    (newEvent mondayOut).AlertTime = some (unixUTC 1704703500) :=
  ⟨by decide, by decide, by decide,
    (recompute_alert_time okEnv (tickWithZone nextMondayTick) mondayRow mondayOut
      (by decide) (by decide)).1 (by decide),
    by decide, by decide⟩

/-- Counterexample for C6: a kept recurrent row with alert kind "none" and a
stored alert time; the dispatched event carries the stored alert time, not
`nil`. -/
theorem stale_alert_counterexample :
    staleAlertRow.Recurrent = true ∧
    staleAlertRow.Alert = okEnv.EventAlertNone ∧
    (recompute okEnv (tickWithZone nextMondayTick) staleAlertRow).map
        (fun out => (newEvent out).AlertTime)
      = some (some (unixUTC 1704098700)) := by
  decide

/-- Claim C7 (broadcast fan-out).  For a duplicate-free attendee list, every
call of `sendWsNotification` is a broadcast of the id and title of the event
to one attendee or the owner, each attendee and the owner get exactly one
broadcast and nobody else gets any, the number of broadcasts is the number of
distinct users among attendees and owner, and attendees `a`, `b` with another
owner give the three broadcasts to `a`, `b` and the owner. -/
theorem sendWsNotification_fanout (event : Event) (processTime : Time)
    (hnd : event.Attendees.Nodup) :
    (∀ fx ∈ sendWsNotification event processTime, ∃ user,
        (user ∈ event.Attendees ∨ user = event.Owner) ∧
        fx = Effect.publishWebSocketEvent wsEventOccur
          { id := event.Id, title := event.Title, channel := none } user) ∧
    (∀ user, (sendWsNotification event processTime).count
        (Effect.publishWebSocketEvent wsEventOccur
          { id := event.Id, title := event.Title, channel := none } user)
        = if user ∈ event.Attendees ∨ user = event.Owner then 1 else 0) ∧
    (sendWsNotification event processTime).length
        = (event.Attendees.toFinset ∪ {event.Owner}).card ∧
    (∀ a b, event.Attendees = [a, b] → event.Owner ≠ a → event.Owner ≠ b →
      sendWsNotification event processTime =
        [Effect.publishWebSocketEvent wsEventOccur
            { id := event.Id, title := event.Title, channel := none } a,
          Effect.publishWebSocketEvent wsEventOccur
            { id := event.Id, title := event.Title, channel := none } b,
          Effect.publishWebSocketEvent wsEventOccur
            { id := event.Id, title := event.Title, channel := none } event.Owner]) := by
  have hinj : Function.Injective (fun user : String =>
      Effect.publishWebSocketEvent wsEventOccur
        { id := event.Id, title := event.Title, channel := none } user) := by
    intro a b hab
    simpa using hab
  have hN := nodup_with_owner event.Attendees event.Owner hnd
  rw [sendWsNotification_eq]
  refine ⟨?_, ?_, ?_, ?_⟩
  · intro fx hfx
    rw [List.mem_map] at hfx
    obtain ⟨user, hu, rfl⟩ := hfx
    exact ⟨user, (mem_with_owner _ _ _).1 hu, rfl⟩
  · intro user
    rw [List.count_map_of_injective _ _ hinj]
    by_cases hu : user ∈ event.Attendees ∨ user = event.Owner
    · rw [if_pos hu]
      exact List.count_eq_one_of_mem hN ((mem_with_owner _ _ _).2 hu)
    · rw [if_neg hu]
      exact List.count_eq_zero_of_not_mem (fun hm => hu ((mem_with_owner _ _ _).1 hm))
  · rw [List.length_map, ← List.toFinset_card_of_nodup hN]
    congr 1
    ext user
    simp only [List.mem_toFinset, Finset.mem_union, Finset.mem_singleton]
    exact mem_with_owner _ _ _
  · intro a b hab ha hb
    simp [hab, ha, hb]

/-- Witness for C7: attendees `A` and `B` with owner `O`. -/
theorem sendWsNotification_fanout_witness :
    groupEvent.Attendees.Nodup ∧
    sendWsNotification groupEvent (tickWithZone newYearTick) =
      [Effect.publishWebSocketEvent wsEventOccur
          { id := groupEvent.Id, title := groupEvent.Title, channel := none } "A",
        Effect.publishWebSocketEvent wsEventOccur
          { id := groupEvent.Id, title := groupEvent.Title, channel := none } "B",
        Effect.publishWebSocketEvent wsEventOccur
          { id := groupEvent.Id, title := groupEvent.Title, channel := none } groupEvent.Owner] :=
  ⟨by decide,
    (sendWsNotification_fanout groupEvent (tickWithZone newYearTick) (by decide)).2.2.2
      "A" "B" rfl (by decide) (by decide)⟩

/-- Claim C8 (attendee merging).  For the rows the candidate query returns
from a store with unique event ids, the decoded ones belonging to events that
are not recurrent: the map holds one event per distinct id of the decoded rows,
the attendees of each event are the non-null members of the decoded rows of
its id in row order, and its other fields are those of the first decoded row
of its id. -/
theorem mergeRows_attendees (env : Env) (store : Store) (tick : Time)
    (hkey : (store.events.map (fun ce => ce.Id)).Nodup)
    (hplain : ∀ row ∈ decodedRows env (selectDue store tick), row.Recurrent = false) :
    ((mergeRows env tick (selectDue store tick)).map (fun e => e.Id)).Nodup ∧
    (∀ id, id ∈ (mergeRows env tick (selectDue store tick)).map (fun e => e.Id) ↔
      id ∈ (decodedRows env (selectDue store tick)).map (fun row => row.Id)) ∧
    (∀ e ∈ mergeRows env tick (selectDue store tick), e.Attendees =
      ((decodedRows env (selectDue store tick)).filter (fun row => row.Id == e.Id)).filterMap
        (fun row => row.User)) ∧
    (∀ e ∈ mergeRows env tick (selectDue store tick), ∃ first,
      (decodedRows env (selectDue store tick)).find? (fun row => row.Id == e.Id) = some first ∧
      { e with Attendees := [] } = { newEvent first with Attendees := [] }) := by
  rw [mergeRows_decoded]
  apply mergeRows_rows env tick (decodedRows env (selectDue store tick)) _ hplain
  · exact (selectDue_pairwise store tick hkey).filter _
  · intro row hrow
    unfold decodedRows at hrow
    rw [List.mem_filter] at hrow
    simpa using hrow.2

/-- Witness for C8: the event `e1` with members `a`, `x`, `b` and the event `e2`
without members give the rows `(e1, a)`, `(e1, x)`, `(e1, b)`, `(e2, null)`,
of which the second fails to decode. -/
theorem mergeRows_attendees_witness :
    (memberStore.events.map (fun ce => ce.Id)).Nodup ∧
    (∀ row ∈ decodedRows scanFailEnv (selectDue memberStore (tickWithZone newYearTick)),
      row.Recurrent = false) ∧
    (selectDue memberStore (tickWithZone newYearTick)).map (fun row => (row.Id, row.User))
      = [("e1", some "a"), ("e1", some "x"), ("e1", some "b"), ("e2", none)] ∧
    (∀ e ∈ mergeRows scanFailEnv (tickWithZone newYearTick)
        (selectDue memberStore (tickWithZone newYearTick)),
      e.Attendees =
        ((decodedRows scanFailEnv (selectDue memberStore (tickWithZone newYearTick))).filter
          (fun row => row.Id == e.Id)).filterMap (fun row => row.User)) ∧
    (mergeRows scanFailEnv (tickWithZone newYearTick)
        (selectDue memberStore (tickWithZone newYearTick))).map (fun e => (e.Id, e.Attendees))
      = [("e1", ["a", "b"]), ("e2", [])] :=
  ⟨by decide, by decide, by decide,
    (mergeRows_attendees scanFailEnv memberStore (tickWithZone newYearTick)
      (by decide) (by decide)).2.2.1,
    by decide⟩

/-- Claim C9 (message composition under failing lookups).  For an event with
attendees and any lookup function, the message is the header line (the alarm
header when the alert time is the tick, the plain one otherwise), then the
line `**members:** ` followed by a mention `@name, ` for each attendee whose
lookup succeeds, in attendee order, and nothing for the others, then the
description block if there is a description: a failed lookup drops one
mention and nothing else. -/
theorem getMessageFromEvent_mentions (env : Env) (event : Event) (processTime : Time)
    (hne : event.Attendees ≠ []) :
    getMessageFromEvent env event processTime =
      (if event.AlertTime.any (fun alertTime => processTime.Equal alertTime) then
          ":alarm_clock: **" ++ (env.EventAlertTitleMap event.Alert).getD "" ++ "** *"
            ++ event.Title ++ "* :alarm_clock:\n"
        else ":dart: *" ++ event.Title ++ "* :dart:\n")
        ++ ("**members:** " ++ mentionsOf env event.Attendees ++ "\n")
        ++ (if event.Description ≠ "" then "**description:**\n" ++ event.Description else "") := by
  have hlen : event.Attendees.length > 0 := List.length_pos.2 hne
  unfold getMessageFromEvent
  have hloop := members_loop env event.Attendees ""
  rw [String.empty_append] at hloop
  simp only [hlen, if_true, hloop, String.empty_append]
  by_cases hd : event.Description = ""
  · simp [hd]
  · simp [hd]

/-- Witness for C9: of the attendees `a`, `x`, `c` the lookup of `x` fails and
the message mentions `a` and `c`. -/
theorem getMessageFromEvent_mentions_witness :
    threeEvent.Attendees ≠ [] ∧
    getMessageFromEvent lookupFailEnv threeEvent (tickWithZone newYearTick) =
      (if threeEvent.AlertTime.any (fun alertTime => (tickWithZone newYearTick).Equal alertTime)
        then
          ":alarm_clock: **" ++ (lookupFailEnv.EventAlertTitleMap threeEvent.Alert).getD ""
            ++ "** *" ++ threeEvent.Title ++ "* :alarm_clock:\n"
        else ":dart: *" ++ threeEvent.Title ++ "* :dart:\n")
        ++ ("**members:** " ++ mentionsOf lookupFailEnv threeEvent.Attendees ++ "\n")
        ++ (if threeEvent.Description ≠ "" then "**description:**\n" ++ threeEvent.Description
            else "") ∧
    mentionsOf lookupFailEnv threeEvent.Attendees = "@a, @c, " ∧
    getMessageFromEvent lookupFailEnv threeEvent (tickWithZone newYearTick)
      = ":dart: *title e5* :dart:\n**members:** @a, @c, \n" :=
  ⟨by decide,
    getMessageFromEvent_mentions lookupFailEnv threeEvent (tickWithZone newYearTick) (by decide),
    by decide, by decide⟩

/-- Claim C10 at the legacy value `[2, 4]`: the update written is
`BYDAY=MO,TU`, the codes of the positions 0 and 1, where the listed days are
`WE,FR`; the value `[0, 1]` gives the same text, and an empty list gives no
per-row update. -/
theorem legacy_rule_from_index :
    migrateLegacyRecurrentEvents [("e1", [2, 4])]
      = [("e1", "RRULE:FREQ=WEEKLY;INTERVAL=1;BYDAY=MO,TU")] ∧
    legacyRuleOfDays [2, 4] = "RRULE:FREQ=WEEKLY;INTERVAL=1;BYDAY=WE,FR" ∧
    legacyRule [2, 4] ≠ some (legacyRuleOfDays [2, 4]) ∧
    legacyRule [2, 4] = legacyRule [0, 1] ∧
    migrateLegacyRecurrentEvents [("e2", [])] = [] := by
  decide


end Calendar
